import Mathlib

/-!
# Verification of the BrainPy connectivity-generation engine

Shallow embedding of `brainpy/connect/random_conn.py`: the stochastic
graph-construction algorithms (`FixedProb`, `FixedPreNum`/`FixedPostNum`,
`GaussianProb`, `SmallWorld`, `ScaleFreeBA`, `ScaleFreeBADual`, `PowerLaw`,
`ProbDist`) that produce synapse topologies between two populations.

Randomness is modelled by explicit pseudo-random streams: a `Rng` value
carries a stream of uniform rational draws in `[0, 1)` (modelling
`rng.random()`) and a stream of natural-number draws (modelling
`rng.randint`/`rng.choice`).  Python exceptions are modelled by `PyErr` and
`Except`.  NumPy boolean matrices are modelled as functions `ℕ → ℕ → Bool`
updated pointwise.
-/

namespace BrainPy

/-- Python exception kinds raised (or raisable) by the connection builders:
`ConnectorError` from `brainpy.errors`, plus the builtin exception classes
that `assert` statements, out-of-range indexing, `np.concatenate([])` and
bad keyword arguments produce. -/
inductive PyErr where
  | connectorError
  | assertionError
  | indexError
  | valueError
  | typeError
  | notImplementedError
  deriving DecidableEq, Repr

/-- A pseudo-random generator state: `runif` is the stream of uniform draws
in `[0, 1)` (as produced by `rng.random()`), `rint` the stream of integer
draws (as consumed by `rng.randint` / `rng.choice`); `upos`/`ipos` are the
positions of the next unread element of each stream. -/
structure Rng where
  runif : ℕ → ℚ
  rint : ℕ → ℕ
  upos : ℕ
  ipos : ℕ

/-- Draw one uniform value (`rng.random()`). -/
def Rng.random (r : Rng) : ℚ × Rng :=
  (r.runif r.upos, { r with upos := r.upos + 1 })

/-- Draw `n` uniform values at once (`rng.random(n)`). -/
def Rng.randomN (r : Rng) (n : ℕ) : List ℚ × Rng :=
  ((List.range n).map (fun t => r.runif (r.upos + t)), { r with upos := r.upos + n })

/-- Draw one integer (`rng.randint` and the index draw behind `rng.choice`). -/
def Rng.randNat (r : Rng) : ℕ × Rng :=
  (r.rint r.ipos, { r with ipos := r.ipos + 1 })

/-- `rng.choice(l)`: pick one element of `l` uniformly, modelled by reducing
an integer draw modulo the length. -/
def Rng.choice (r : Rng) (l : List ℕ) : ℕ × Rng :=
  let (n, r) := r.randNat
  (l.getD (n % l.length) 0, r)

instance (ε α : Type) [DecidableEq ε] [DecidableEq α] : DecidableEq (Except ε α) :=
  fun x y =>
    match x, y with
    | .ok a, .ok b => decidable_of_iff (a = b) (by simp)
    | .error a, .error b => decidable_of_iff (a = b) (by simp)
    | .ok _, .error _ => isFalse (fun h => Except.noConfusion h)
    | .error _, .ok _ => isFalse (fun h => Except.noConfusion h)

/-- A boolean connectivity matrix (`np.zeros((n, n), dtype=bool)` etc.),
as a total function; entries outside the population range are `false`. -/
def Mat : Type := ℕ → ℕ → Bool

/-- Pointwise matrix write `mat[i, j] = b`. -/
def matSet (m : Mat) (i j : ℕ) (b : Bool) : Mat :=
  fun x y => if x = i ∧ y = j then b else m x y

/-- The all-`false` matrix (`np.zeros`). -/
def matZeros : Mat := fun _ _ => false

/-- The all-`true` `n × n` matrix (`np.ones((n, n))`). -/
def matOnes (n : ℕ) : Mat := fun i j => decide (i < n) && decide (j < n)

/-- Out-degree of node `v` restricted to columns `[0, n)`:
the number of `true` entries in row `v`. -/
def rowCount (m : Mat) (v n : ℕ) : ℕ :=
  ((List.range n).filter (fun j => m v j)).length

/-- In-degree of node `v` restricted to rows `[0, n)`:
the number of `true` entries in column `v`. -/
def colCount (m : Mat) (v n : ℕ) : ℕ :=
  ((List.range n).filter (fun i => m i v)).length

/-! ## `FixedNum._fixed_num_prob` (random_conn.py lines 163-170)

```python
def _fixed_num_prob(num_need, num_total, i=0):
  prob = rng.random(num_total)
  if not include_self and i <= num_total:
    prob[i] = 1.
  neu_idx = np.argsort(prob)[:num_need]
  return np.asarray(neu_idx, dtype=IDX_DTYPE)
```

`np.argsort` is modelled as sorting the index list `[0, num_total)` by the
drawn values.  The write `prob[i] = 1.` is modelled exactly: it is guarded
by `i <= num_total`, and an actual write at an index `≥ num_total` (the
array's length) raises `IndexError`. -/

/-- `np.argsort(l)`: the indices of `l` sorted by their values. -/
def argsort (l : List ℚ) : List ℕ :=
  List.insertionSort (fun a b => l.getD a 0 ≤ l.getD b 0) (List.range l.length)

/-- `_fixed_num_prob` with the row's uniform draws passed explicitly;
`draws.length` plays the role of `num_total`. -/
def fixedNumProb (draws : List ℚ) (numNeed i : ℕ) (includeSelf : Bool) :
    Except PyErr (List ℕ) :=
  let numTotal := draws.length
  if includeSelf = false ∧ i ≤ numTotal then
    if i < numTotal then
      .ok ((argsort (draws.set i 1)).take numNeed)
    else
      .error .indexError
  else
    .ok ((argsort draws).take numNeed)

theorem argsort_perm (l : List ℚ) : (argsort l).Perm (List.range l.length) :=
  List.perm_insertionSort _ _

theorem argsort_nodup (l : List ℚ) : (argsort l).Nodup :=
  ((argsort_perm l).nodup_iff).mpr (List.nodup_range _)

theorem argsort_mem_lt (l : List ℚ) {x : ℕ} (hx : x ∈ argsort l) : x < l.length := by
  have := (argsort_perm l).mem_iff.mp hx
  simpa using this

theorem argsort_length (l : List ℚ) : (argsort l).length = l.length := by
  simpa using (argsort_perm l).length_eq

/-- Sequence a list of fallible row computations in order, failing at the
first error (the Python `for` loop appending `self._connect(...)` results). -/
def collectRows (f : ℕ → Except PyErr (List ℕ)) : List ℕ → Except PyErr (List (List ℕ))
  | [] => .ok []
  | i :: is => do
      let row ← f i
      let rest ← collectRows f is
      .ok (row :: rest)

/-! ## `FixedPostNum.build_conn` (lines 239-262) and
`FixedPreNum.build_conn` (lines 195-217), integer `num` branch

Each build first asserts `0 <= num <= post_num` (resp. `pre_num`), then
re-derives the compiled-loop seed and calls `_fixed_num_prob` once per row.
The per-row uniform draws are passed as the stream `draws` (row `i` uses
`draws i 0, …, draws i (num_total - 1)`); the seed-derivation wrapper is
`fixedPostNumFirstBuild` below.  `FixedPostNum` concatenates the rows with
`np.concatenate(post_ids)`, which raises `ValueError` on an empty list
(`pre_num = 0`); `FixedPreNum` guards that case.  CSR `indptr` is
`np.concatenate(([0], np.ones(pre_num) * num)).cumsum()`. -/

def fixedPostNumBuildConn (num preNum postNum : ℕ) (includeSelf : Bool)
    (draws : ℕ → ℕ → ℚ) : Except PyErr (List ℕ × List ℕ) :=
  if num ≤ postNum then do
    let rows ← collectRows
      (fun i => fixedNumProb ((List.range postNum).map (draws i)) num i includeSelf)
      (List.range preNum)
    if rows.isEmpty then
      .error .valueError
    else
      .ok (rows.flatten, (List.range (preNum + 1)).map (· * num))
  else .error .assertionError

def fixedPreNumBuildConn (num preNum postNum : ℕ) (includeSelf : Bool)
    (draws : ℕ → ℕ → ℚ) : Except PyErr (List ℕ × List ℕ) :=
  if num ≤ preNum then do
    let rows ← collectRows
      (fun i => fixedNumProb ((List.range preNum).map (draws i)) num i includeSelf)
      (List.range postNum)
    .ok (rows.flatten, ((List.range postNum).map (fun i => List.replicate num i)).flatten)
  else .error .assertionError

/-- A successful `_fixed_num_prob` call returns `min numNeed numTotal`
distinct indices below `numTotal`; it succeeds whenever `include_self` is
true or the row index is strictly below the draw count. -/
theorem fixedNumProb_ok (draws : List ℚ) (numNeed i : ℕ) (incl : Bool)
    (h : incl = true ∨ i < draws.length) :
    ∃ res, fixedNumProb draws numNeed i incl = .ok res ∧
      res.length = min numNeed draws.length ∧ res.Nodup ∧
      ∀ x ∈ res, x < draws.length := by
  cases incl with
  | true =>
    refine ⟨(argsort draws).take numNeed, ?_, ?_, ?_, ?_⟩
    · simp [fixedNumProb]
    · simp [List.length_take, argsort_length]
    · exact (List.take_sublist _ _).nodup (argsort_nodup _)
    · intro x hx
      exact argsort_mem_lt draws (List.mem_of_mem_take hx)
  | false =>
    have hi : i < draws.length := h.resolve_left (by simp)
    refine ⟨(argsort (draws.set i 1)).take numNeed, ?_, ?_, ?_, ?_⟩
    · simp [fixedNumProb, hi, Nat.le_of_lt hi]
    · simp [List.length_take, argsort_length]
    · exact (List.take_sublist _ _).nodup (argsort_nodup _)
    · intro x hx
      have := argsort_mem_lt (draws.set i 1) (List.mem_of_mem_take hx)
      simpa using this

theorem collectRows_ok (f : ℕ → Except PyErr (List ℕ)) (Q : List ℕ → Prop)
    (is : List ℕ) (h : ∀ i ∈ is, ∃ out, f i = .ok out ∧ Q out) :
    ∃ rows, collectRows f is = .ok rows ∧ rows.length = is.length ∧
      ∀ r ∈ rows, Q r := by
  induction is with
  | nil => exact ⟨[], rfl, rfl, by simp⟩
  | cons i is ih =>
    obtain ⟨out, hout, hQ⟩ := h i (by simp)
    obtain ⟨rows, hrows, hlen, hall⟩ := ih (fun j hj => h j (by simp [hj]))
    refine ⟨out :: rows, ?_, by simp [hlen], ?_⟩
    · simp only [collectRows, hout, hrows]; rfl
    · intro r hr
      rcases List.mem_cons.mp hr with h1 | h1
      · exact h1 ▸ hQ
      · exact hall r h1

/-- Slicing a concatenation of equal-length rows recovers one of the rows. -/
theorem flatten_slice (rs : List (List ℕ)) (k : ℕ) (hlen : ∀ r ∈ rs, r.length = k) :
    ∀ i < rs.length, ∃ r ∈ rs, (rs.flatten.drop (i * k)).take k = r := by
  induction rs with
  | nil => simp
  | cons r rs ih =>
    intro i hi
    cases i with
    | zero =>
      refine ⟨r, by simp, ?_⟩
      have hr : r.length = k := hlen r (by simp)
      rw [List.flatten_cons, Nat.zero_mul, List.drop_zero, ← hr, List.take_left]
    | succ i =>
      obtain ⟨r', hr', hs⟩ := ih (fun x hx => hlen x (by simp [hx])) i (by simpa using hi)
      refine ⟨r', by simp [hr'], ?_⟩
      have hr : r.length = k := hlen r (by simp)
      rw [List.flatten_cons, Nat.succ_mul, Nat.add_comm, ← List.drop_drop, ← hr,
        List.drop_left, hr, hs]

/-- C1 (amended): for `FixedPostNum` with an integer `num = k`,
`0 ≤ k ≤ post_num`, over a nonempty pre-population, and provided
`include_self` is true or `pre_num ≤ post_num` (otherwise the
self-exclusion write `prob[i] = 1.` goes out of bounds at row
`i = post_num` and the build raises `IndexError`), `build_conn` returns a
CSR representation in which every pre-index has out-degree exactly `k`:
`indptr[i] = i·k`, and each row slice `post_ids[indptr[i]:indptr[i+1]]`
has length `k` and holds `k` distinct post-indices in `[0, post_num)`. -/
theorem fixedPostNum_out_degree_exact (k preNum postNum : ℕ) (incl : Bool)
    (draws : ℕ → ℕ → ℚ) (hpre : 1 ≤ preNum) (hk : k ≤ postNum)
    (hincl : incl = true ∨ preNum ≤ postNum) :
    ∃ postIds indptr,
      fixedPostNumBuildConn k preNum postNum incl draws = .ok (postIds, indptr) ∧
      indptr.length = preNum + 1 ∧
      (∀ i, i ≤ preNum → indptr.getD i 0 = i * k) ∧
      ∀ i < preNum,
        ((postIds.drop (i * k)).take k).length = k ∧
        ((postIds.drop (i * k)).take k).Nodup ∧
        ∀ x ∈ (postIds.drop (i * k)).take k, x < postNum := by
  have hrow : ∀ i ∈ List.range preNum,
      ∃ out, fixedNumProb ((List.range postNum).map (draws i)) k i incl = .ok out ∧
        (out.length = k ∧ out.Nodup ∧ ∀ x ∈ out, x < postNum) := by
    intro i hi
    have hi' : i < preNum := List.mem_range.mp hi
    have hlen : ((List.range postNum).map (draws i)).length = postNum := by simp
    have h : incl = true ∨ i < ((List.range postNum).map (draws i)).length := by
      rcases hincl with h | h
      · exact Or.inl h
      · exact Or.inr (by rw [hlen]; exact Nat.lt_of_lt_of_le hi' h)
    obtain ⟨res, hres, hrlen, hrnd, hrmem⟩ := fixedNumProb_ok _ k i incl h
    refine ⟨res, hres, ?_, hrnd, fun x hx => by
      have := hrmem x hx; rwa [hlen] at this⟩
    rw [hrlen, hlen]
    exact Nat.min_eq_left hk
  obtain ⟨rows, hrows, hrowslen, hall⟩ := collectRows_ok _ _ _ hrow
  have hne : rows ≠ [] := by
    intro h
    rw [h] at hrowslen
    simp at hrowslen
    omega
  refine ⟨rows.flatten, (List.range (preNum + 1)).map (· * k), ?_, by simp, ?_, ?_⟩
  · simp only [fixedPostNumBuildConn, if_pos hk, hrows]
    show (if rows.isEmpty then Except.error PyErr.valueError
      else Except.ok (rows.flatten, (List.range (preNum + 1)).map (· * k))) = _
    rw [if_neg (by simpa using hne)]
  · intro i hi
    have hi' : i < preNum + 1 := Nat.lt_succ_of_le hi
    simp [List.getD_eq_getElem?_getD, List.getElem?_range, hi']
  · intro i hi
    obtain ⟨r, hr, hs⟩ :=
      flatten_slice rows k (fun r hr => (hall r hr).1) i (by rwa [hrowslen, List.length_range])
    rw [hs]
    exact ⟨(hall r hr).1, (hall r hr).2.1, (hall r hr).2.2⟩

theorem fixedPostNum_out_degree_exact_witness :
    (1 ≤ 2 ∧ 1 ≤ 2) ∧
    ∃ postIds indptr,
      fixedPostNumBuildConn 1 2 2 true (fun _ j => if j = 0 then 1/2 else 1/4) =
        .ok (postIds, indptr) ∧
      indptr.length = 2 + 1 ∧
      (∀ i, i ≤ 2 → indptr.getD i 0 = i * 1) ∧
      ∀ i < 2,
        ((postIds.drop (i * 1)).take 1).length = 1 ∧
        ((postIds.drop (i * 1)).take 1).Nodup ∧
        ∀ x ∈ (postIds.drop (i * 1)).take 1, x < 2 :=
  ⟨⟨by decide, by decide⟩,
    fixedPostNum_out_degree_exact 1 2 2 true _ (by decide) (by decide) (Or.inl rfl)⟩

/-- C1 (counterexample to the claim as stated): with `num = 1 = post_num`,
`include_self = False` and `pre_num = 2 > 1 = post_num`, the build does not
return a CSR representation at all: at row `i = 1` the guard
`i <= num_total` admits the out-of-bounds write `prob[1] = 1.` into the
length-1 draw array, so `build_conn` raises `IndexError`. -/
theorem fixedPostNum_claim_counterexample :
    fixedPostNumBuildConn 1 2 1 false (fun _ _ => 1/2) = .error .indexError ∧
    ∀ out : List ℕ × List ℕ,
      fixedPostNumBuildConn 1 2 1 false (fun _ _ => 1/2) ≠ .ok out := by
  refine ⟨by decide, ?_⟩
  intro out h
  rw [show fixedPostNumBuildConn 1 2 1 false (fun _ _ => 1/2) = .error .indexError
    from by decide] at h
  exact Except.noConfusion h

/-- C9: in `FixedPreNum.build_conn` with `include_self = False`, the guard
`i <= num_total` in `_fixed_num_prob` does NOT keep the write
`prob[i] = 1.` in bounds: at post-index `i = num_total = pre_num`
(reachable whenever `post_num > pre_num`) it permits an access at index
`pre_num` into the length-`pre_num` draw array, raising `IndexError`.
Evaluated here at `pre_num = 3`, `post_num = 4`, `num = 1`: the row sampler
fails at `i = 3` and the whole build fails. -/
theorem fixedPreNum_guard_out_of_bounds :
    fixedNumProb [(1:ℚ)/2, 1/2, 1/2] 1 3 false = .error .indexError ∧
    fixedPreNumBuildConn 1 3 4 false (fun _ _ => 1/2) = .error .indexError := by
  decide

/-! ## `FixedProb` (lines 24-132) -/

/-- The parameters stored by a successfully constructed `FixedProb`. -/
structure FixedProbParams where
  prob : ℚ
  preRatio : ℚ
  includeSelf : Bool
  seed : ℕ
  deriving DecidableEq

/-- `FixedProb.__init__` (lines 39-46): the statement
`assert 0. <= prob <= 1.` runs eagerly at construction; an out-of-range
`prob` therefore raises the builtin `AssertionError` (not a
`ConnectorError`), and the value is never clamped. -/
def fixedProbInit (prob preRatio : ℚ) (includeSelf : Bool) (seed : ℕ) :
    Except PyErr FixedProbParams :=
  if 0 ≤ prob ∧ prob ≤ 1 then .ok ⟨prob, preRatio, includeSelf, seed⟩
  else .error .assertionError

/-- `np.fill_diagonal(mat, False)`: clear the diagonal entries `[i, i]`
for `i` below the shorter matrix dimension. -/
def fillDiagMat (m : Mat) (n : ℕ) : Mat :=
  fun i j => if i = j ∧ i < n then false else m i j

/-- `FixedProb.build_conn`'s inner `f_connect` (lines 63-69): draw the
participation gate `rng.random() < pre_ratio`; on success draw `num_post`
uniform values, mark post `j` when its draw is `<= prob`, force
`p[pre_i] = False` when `include_self` is false and `pre_i < num_post`,
and return `np.where(p)[0]`. -/
def fConnect (prob preRatio : ℚ) (includeSelf : Bool) (postNum i : ℕ) (r : Rng) :
    Option (List ℕ) × Rng :=
  let (g, r) := r.random
  if g < preRatio then
    let (ds, r) := r.randomN postNum
    let p := (List.range postNum).map (fun j => decide (ds.getD j 0 ≤ prob))
    let p := if includeSelf = false ∧ i < postNum then p.set i false else p
    (some ((List.range postNum).filter (fun j => p.getD j false)), r)
  else (none, r)

/-- One iteration of the `build_conn` loop over pre-indices (lines 74-78):
append the row's posts to `ind` and record the row count (0 when the row's
gate failed and `f_connect` returned `None`). -/
def fixedProbStep (prob preRatio : ℚ) (includeSelf : Bool) (postNum : ℕ)
    (st : List ℕ × List ℕ × Rng) (i : ℕ) : List ℕ × List ℕ × Rng :=
  match fConnect prob preRatio includeSelf postNum i st.2.2 with
  | (some posts, r) => (st.1 ++ posts, st.2.1 ++ [posts.length], r)
  | (none, r) => (st.1, st.2.1 ++ [0], r)

/-- `FixedProb.build_conn` (lines 52-82): loop `f_connect` over the
pre-indices, accumulating the selected posts (`ind`) and per-row counts;
rows whose gate fails contribute nothing and count 0; the CSR `indptr` is
`np.concatenate(([0], count)).cumsum()`. -/
def fixedProbBuildConn (prob preRatio : ℚ) (includeSelf : Bool)
    (preNum postNum : ℕ) (r : Rng) : List ℕ × List ℕ :=
  let res := (List.range preNum).foldl
    (fixedProbStep prob preRatio includeSelf postNum) ([], [], r)
  (res.1, List.scanl (· + ·) 0 res.2.1)

/-- `FixedProb.build_mat` (lines 84-91): an entry is set when its uniform
draw is `< prob` and its row's gate draw is `< pre_ratio`; with
`include_self = False` the diagonal is cleared afterwards. -/
def fixedProbBuildMat (prob preRatio : ℚ) (includeSelf : Bool)
    (preNum postNum : ℕ) (gateDraws : ℕ → ℚ) (cellDraws : ℕ → ℕ → ℚ) : Mat :=
  let mat : Mat := fun i j =>
    (decide (i < preNum) && decide (j < postNum)) &&
      (decide (cellDraws i j < prob) && decide (gateDraws i < preRatio))
  if includeSelf = false then fillDiagMat mat (min preNum postNum) else mat

/-- The per-row post selection of `build_coo`/`build_csr` (lines 104-107,
125-128): drop index `i` from the post ids when `include_self` is false
(`bm.delete`), permute, and keep the first `post_num_to_select`.  `perm` is
the random-permutation oracle (`self.rng.permutation`). -/
def fixedProbSelect (includeSelf : Bool) (postNum k : ℕ)
    (perm : ℕ → List ℕ → List ℕ) (i : ℕ) : List ℕ :=
  let posts := if includeSelf = false then (List.range postNum).eraseIdx i
               else List.range postNum
  (perm i posts).take k

/-- `FixedProb.build_coo` (lines 93-111): `post_num_to_select` is
`int(post_num * prob)`; below `pre_ratio = 1` the participating pre ids are
drawn without replacement (`choosePre` oracle, given the requested count);
the result pairs each selected pre id repeated `post_num_to_select` times
with its selected posts. -/
def fixedProbBuildCoo (prob preRatio : ℚ) (includeSelf : Bool)
    (preNum postNum : ℕ) (choosePre : ℕ → List ℕ)
    (perm : ℕ → List ℕ → List ℕ) : List ℕ × List ℕ :=
  let k := (⌊(postNum : ℚ) * prob⌋).toNat
  let preIds := if preRatio < 1 then choosePre (⌊(preNum : ℚ) * preRatio⌋).toNat
                else List.range preNum
  ((preIds.map (fun i => List.replicate k i)).flatten,
   (preIds.map (fixedProbSelect includeSelf postNum k perm)).flatten)

/-- `FixedProb.build_csr` (lines 113-132): same selection as `build_coo`;
the `indptr` is `cumsum([0] ++ ones(pre_num_to_select) * post_num_to_select)`. -/
def fixedProbBuildCsr (prob preRatio : ℚ) (includeSelf : Bool)
    (preNum postNum : ℕ) (choosePre : ℕ → List ℕ)
    (perm : ℕ → List ℕ → List ℕ) : List ℕ × List ℕ :=
  let k := (⌊(postNum : ℚ) * prob⌋).toNat
  let chosen := choosePre (⌊(preNum : ℚ) * preRatio⌋).toNat
  let npre := if preRatio < 1 then chosen.length else preNum
  let preIds := if preRatio < 1 then chosen else List.range preNum
  ((preIds.map (fixedProbSelect includeSelf postNum k perm)).flatten,
   List.scanl (· + ·) 0 (List.replicate npre k))

/-- The all-zero random streams, a legitimate draw sequence (uniform draws
lie in `[0, 1)`, which contains `0`). -/
def rngZero : Rng := ⟨fun _ => 0, fun _ => 0, 0, 0⟩

/-- C5 (counterexample to the claim as stated): constructing `FixedProb`
with `prob = 2` fails eagerly, but the raised error is the builtin
`AssertionError` produced by `assert 0. <= prob <= 1.`, not a
`ConnectorError`. -/
theorem fixedProbInit_claim_counterexample :
    fixedProbInit 2 1 true 0 = .error .assertionError ∧
    fixedProbInit 2 1 true 0 ≠ .error .connectorError := by decide

/-- C5 (amended): constructing `FixedProb` with `prob` outside `[0, 1]`
fails eagerly at construction (the value is never stored or clamped), but
with the builtin `AssertionError` raised by the bare `assert`, not with an
error from the `ConnectorError` taxonomy. -/
theorem fixedProbInit_rejects_out_of_range (prob preRatio : ℚ) (incl : Bool)
    (seed : ℕ) (h : prob < 0 ∨ 1 < prob) :
    fixedProbInit prob preRatio incl seed = .error .assertionError := by
  rw [fixedProbInit, if_neg]
  rintro ⟨h0, h1⟩
  rcases h with h | h
  · exact absurd h0 (not_le.mpr h)
  · exact absurd h1 (not_le.mpr h)

theorem fixedProbInit_rejects_out_of_range_witness :
    ((2:ℚ) < 0 ∨ (1:ℚ) < 2) ∧
    fixedProbInit 2 1 false 7 = .error .assertionError :=
  ⟨Or.inr (by norm_num),
    fixedProbInit_rejects_out_of_range 2 1 false 7 (Or.inr (by norm_num))⟩

theorem getD_map_range {α : Type} (f : ℕ → α) (n j : ℕ) (d : α) (h : j < n) :
    ((List.range n).map f).getD j d = f j := by
  rw [List.getD_eq_getElem?_getD, List.getElem?_map, List.getElem?_range h]
  rfl

theorem set_false_getD (l : List Bool) (i j : ℕ)
    (h : l.getD j false = false) : (l.set i false).getD j false = false := by
  rcases eq_or_ne j i with rfl | hne
  · by_cases hl : j < l.length
    · rw [List.getD_eq_getElem?_getD, List.getElem?_set_self hl]
      rfl
    · rw [List.getD_eq_getElem?_getD,
        List.getElem?_eq_none (by simpa using Nat.le_of_not_lt hl)]
      rfl
  · rw [List.getD_eq_getElem?_getD, List.getElem?_set_ne (Ne.symm hne),
      ← List.getD_eq_getElem?_getD]
    exact h

/-- `f_connect` leaves the uniform stream itself unchanged (only the read
position advances). -/
theorem fConnect_runif (prob preRatio : ℚ) (incl : Bool) (postNum i : ℕ)
    (r : Rng) : ((fConnect prob preRatio incl postNum i r).2).runif = r.runif := by
  rw [fConnect]
  dsimp [Rng.random, Rng.randomN]
  split <;> rfl

/-- With `prob = 0`, a `f_connect` row is `None` (gate failed) or selects
no posts, because every draw is strictly positive and the test is
`draw <= 0`. -/
theorem fConnect_zero (preRatio : ℚ) (incl : Bool) (postNum i : ℕ) (r : Rng)
    (hpos : ∀ n, 0 < r.runif n) :
    (fConnect 0 preRatio incl postNum i r).1 = none ∨
    (fConnect 0 preRatio incl postNum i r).1 = some [] := by
  rw [fConnect]
  dsimp [Rng.random, Rng.randomN]
  by_cases hg : r.runif r.upos < preRatio
  · right
    rw [if_pos hg]
    dsimp
    have hp : ∀ j, j < postNum →
        (((List.range postNum).map
          (fun j => decide ((((List.range postNum).map
            (fun t => r.runif (r.upos + 1 + t))).getD j 0) ≤ 0))).getD j false) = false := by
      intro j hj
      rw [getD_map_range _ _ _ _ hj, getD_map_range _ _ _ _ hj]
      simp only [decide_eq_false_iff_not]
      exact not_le.mpr (hpos (r.upos + 1 + j))
    congr 1
    rw [List.filter_eq_nil_iff]
    intro j hj
    have hj' : j < postNum := List.mem_range.mp hj
    split
    · rw [set_false_getD _ _ _ (hp j hj')]
      simp
    · rw [hp j hj']
      simp
  · left
    rw [if_neg hg]

/-- With `prob = 1`, `pre_ratio = 1` and `include_self = True`, every
`f_connect` row selects all of `[0, post_num)` (draws are `< 1 ≤ 1`). -/
theorem fConnect_one (postNum i : ℕ) (r : Rng) (hlt : ∀ n, r.runif n < 1) :
    (fConnect 1 1 true postNum i r).1 = some (List.range postNum) := by
  rw [fConnect]
  dsimp [Rng.random, Rng.randomN]
  rw [if_pos (hlt r.upos)]
  dsimp
  congr 1
  rw [List.filter_eq_self]
  intro j hj
  have hj' : j < postNum := List.mem_range.mp hj
  rw [getD_map_range _ _ _ _ hj', getD_map_range _ _ _ _ hj']
  simpa using le_of_lt (hlt (r.upos + 1 + j))

theorem fixedProb_foldl_zero (preRatio : ℚ) (incl : Bool) (postNum : ℕ)
    (is : List ℕ) :
    ∀ (ind counts : List ℕ) (r : Rng), (∀ n, 0 < r.runif n) →
      (is.foldl (fixedProbStep 0 preRatio incl postNum) (ind, counts, r)).1 = ind := by
  induction is with
  | nil => intro ind counts r _; rfl
  | cons i is ih =>
    intro ind counts r h
    rw [List.foldl_cons]
    rcases hfc : fConnect 0 preRatio incl postNum i r with ⟨o, r'⟩
    have hr' : r'.runif = r.runif := by
      have := fConnect_runif 0 preRatio incl postNum i r
      rw [hfc] at this
      exact this
    have h' : ∀ n, 0 < r'.runif n := by rw [hr']; exact h
    rcases fConnect_zero preRatio incl postNum i r h with h0 | h0 <;>
      rw [hfc] at h0 <;> dsimp at h0 <;> subst h0
    · show (is.foldl _ (fixedProbStep 0 preRatio incl postNum (ind, counts, r) i)).1 = ind
      rw [show fixedProbStep 0 preRatio incl postNum (ind, counts, r) i
          = (ind, counts ++ [0], r') from by rw [fixedProbStep, hfc]]
      exact ih ind (counts ++ [0]) r' h'
    · show (is.foldl _ (fixedProbStep 0 preRatio incl postNum (ind, counts, r) i)).1 = ind
      rw [show fixedProbStep 0 preRatio incl postNum (ind, counts, r) i
          = (ind ++ [], counts ++ [0], r') from by rw [fixedProbStep, hfc]; rfl]
      rw [List.append_nil]
      exact ih ind (counts ++ [0]) r' h'

theorem fixedProb_foldl_one (postNum : ℕ) (is : List ℕ) :
    ∀ (ind counts : List ℕ) (r : Rng), (∀ n, r.runif n < 1) →
      (is.foldl (fixedProbStep 1 1 true postNum) (ind, counts, r)).1
        = ind ++ (is.map (fun _ => List.range postNum)).flatten := by
  induction is with
  | nil => intro ind counts r _; simp
  | cons i is ih =>
    intro ind counts r h
    rw [List.foldl_cons]
    rcases hfc : fConnect 1 1 true postNum i r with ⟨o, r'⟩
    have hr' : r'.runif = r.runif := by
      have := fConnect_runif 1 1 true postNum i r
      rw [hfc] at this
      exact this
    have h' : ∀ n, r'.runif n < 1 := by rw [hr']; exact h
    have h1 := fConnect_one postNum i r h
    rw [hfc] at h1
    dsimp at h1
    subst h1
    show (is.foldl _ (fixedProbStep 1 1 true postNum (ind, counts, r) i)).1 = _
    rw [show fixedProbStep 1 1 true postNum (ind, counts, r) i
        = (ind ++ List.range postNum, counts ++ [(List.range postNum).length], r')
        from by rw [fixedProbStep, hfc]]
    rw [ih (ind ++ List.range postNum) _ r' h']
    simp

theorem mem_zip_replicate (r : List ℕ) (x i : ℕ) (hx : x ∈ r) :
    (i, x) ∈ (List.replicate r.length i).zip r := by
  induction r with
  | nil => simp at hx
  | cons a t ih =>
    rw [List.length_cons, List.replicate_succ, List.zip_cons_cons]
    rcases List.mem_cons.mp hx with h | h
    · subst h
      exact List.mem_cons_self _ _
    · exact List.mem_cons_of_mem _ (ih h)

theorem coo_pair_mem (k : ℕ) (sel : ℕ → List ℕ) (is : List ℕ) :
    (∀ i ∈ is, (sel i).length = k) →
      ∀ i ∈ is, ∀ j ∈ sel i,
        (i, j) ∈ (((is.map (fun i => List.replicate k i)).flatten).zip
          ((is.map sel).flatten)) := by
  induction is with
  | nil => simp
  | cons a t ih =>
    intro hlen i hi j hj
    rw [List.map_cons, List.map_cons, List.flatten_cons, List.flatten_cons,
      List.zip_append (by rw [List.length_replicate, hlen a (by simp)])]
    rcases List.mem_cons.mp hi with h | h
    · subst h
      apply List.mem_append_left
      have := mem_zip_replicate (sel i) j i hj
      rwa [hlen i (by simp)] at this
    · exact List.mem_append_right _
        (ih (fun x hx => hlen x (by simp [hx])) i h j hj)

/-- With `include_self = True` and `post_num_to_select = post_num`, the
`build_coo`/`build_csr` row selection is the full permutation of the post
ids. -/
theorem fixedProbSelect_one (postNum : ℕ) (perm : ℕ → List ℕ → List ℕ)
    (hperm : ∀ i l, (perm i l).Perm l) (a : ℕ) :
    fixedProbSelect true postNum postNum perm a = perm a (List.range postNum) := by
  rw [fixedProbSelect]
  rw [if_neg (by simp)]
  exact List.take_of_length_le (by rw [(hperm a (List.range postNum)).length_eq]; simp)

/-- C4 (amended): `FixedProb` with `prob = 0` produces zero edges through
`build_mat`, `build_coo` and `build_csr` for every draw stream, and through
`build_conn` for every draw stream whose uniform draws are all strictly
positive — `build_conn` tests draws with `<= prob`, so a draw of exactly
`0` (possible for uniform draws in `[0, 1)`) produces an edge there (see
the counterexample).  `FixedProb` with `prob = 1`, `include_self = True`
and `pre_ratio = 1` produces the complete bipartite graph through every
builder: every ordered pair `(i, j)` is an edge. -/
theorem fixedProb_zero_and_one_edges
    (preNum postNum : ℕ) (preRatio : ℚ) (incl : Bool) (r : Rng)
    (gateDraws : ℕ → ℚ) (cellDraws : ℕ → ℕ → ℚ)
    (choosePre : ℕ → List ℕ) (perm : ℕ → List ℕ → List ℕ)
    (hperm : ∀ i l, (perm i l).Perm l)
    (hpos : ∀ n, 0 < r.runif n) (hlt : ∀ n, r.runif n < 1)
    (hcell0 : ∀ i j, 0 ≤ cellDraws i j) (hcell1 : ∀ i j, cellDraws i j < 1)
    (hgate : ∀ i, gateDraws i < 1) :
    ((fixedProbBuildConn 0 preRatio incl preNum postNum r).1 = [] ∧
     (∀ i j, fixedProbBuildMat 0 preRatio incl preNum postNum gateDraws cellDraws i j
        = false) ∧
     fixedProbBuildCoo 0 preRatio incl preNum postNum choosePre perm = ([], []) ∧
     (fixedProbBuildCsr 0 preRatio incl preNum postNum choosePre perm).1 = []) ∧
    ((∀ i, i < preNum → ∀ j, j < postNum →
        j ∈ (((fixedProbBuildConn 1 1 true preNum postNum r).1.drop
          (i * postNum)).take postNum)) ∧
     (∀ i, i < preNum → ∀ j, j < postNum →
        fixedProbBuildMat 1 1 true preNum postNum gateDraws cellDraws i j = true) ∧
     (∀ i, i < preNum → ∀ j, j < postNum →
        (i, j) ∈ ((fixedProbBuildCoo 1 1 true preNum postNum choosePre perm).1.zip
          (fixedProbBuildCoo 1 1 true preNum postNum choosePre perm).2)) ∧
     (∀ i, i < preNum → ∀ j, j < postNum →
        j ∈ (((fixedProbBuildCsr 1 1 true preNum postNum choosePre perm).1.drop
          (i * postNum)).take postNum))) := by
  have hk1 : (⌊(postNum : ℚ) * 1⌋).toNat = postNum := by
    rw [mul_one, Int.floor_natCast, Int.toNat_natCast]
  have hsel : ∀ a, fixedProbSelect true postNum postNum perm a
      = perm a (List.range postNum) := fixedProbSelect_one postNum perm hperm
  have hsellen : ∀ a, (fixedProbSelect true postNum postNum perm a).length = postNum := by
    intro a
    rw [hsel a, (hperm a (List.range postNum)).length_eq, List.length_range]
  refine ⟨⟨?_, ?_, ?_, ?_⟩, ?_, ?_, ?_, ?_⟩
  · rw [fixedProbBuildConn]
    exact fixedProb_foldl_zero preRatio incl postNum (List.range preNum) [] [] r hpos
  · intro i j
    rw [fixedProbBuildMat]
    have hc : (decide (cellDraws i j < (0:ℚ))) = false :=
      decide_eq_false (not_lt.mpr (hcell0 i j))
    split
    · rw [fillDiagMat]
      split
      · rfl
      · simp [hc]
    · simp [hc]
  · rw [fixedProbBuildCoo]
    rw [mul_zero, Int.floor_zero, Int.toNat_zero]
    simp [fixedProbSelect, List.flatten_eq_nil_iff]
  · rw [fixedProbBuildCsr]
    dsimp only
    rw [mul_zero, Int.floor_zero, Int.toNat_zero]
    simp [fixedProbSelect, List.flatten_eq_nil_iff]
  · intro i hi j hj
    have hind : (fixedProbBuildConn 1 1 true preNum postNum r).1
        = ((List.range preNum).map (fun _ => List.range postNum)).flatten := by
      rw [fixedProbBuildConn]
      rw [show ((List.range preNum).foldl (fixedProbStep 1 1 true postNum) ([], [], r)).1
          = [] ++ ((List.range preNum).map (fun _ => List.range postNum)).flatten
          from fixedProb_foldl_one postNum (List.range preNum) [] [] r hlt]
      rw [List.nil_append]
    rw [hind]
    obtain ⟨row, hrow, hs⟩ := flatten_slice
      ((List.range preNum).map (fun _ => List.range postNum)) postNum
      (fun rr hrr => by
        rcases List.mem_map.mp hrr with ⟨a, _, rfl⟩
        exact List.length_range postNum)
      i (by simpa using hi)
    rw [hs]
    rcases List.mem_map.mp hrow with ⟨a, _, rfl⟩
    exact List.mem_range.mpr hj
  · intro i hi j hj
    rw [fixedProbBuildMat]
    rw [if_neg (by simp)]
    simp [hi, hj, hcell1 i j, hgate i]
  · intro i hi j hj
    rw [fixedProbBuildCoo]
    rw [if_neg (by norm_num), hk1]
    refine coo_pair_mem postNum _ (List.range preNum) ?_ i (List.mem_range.mpr hi) j ?_
    · intro a _
      exact hsellen a
    · rw [hsel i]
      exact ((hperm i (List.range postNum)).mem_iff).mpr (List.mem_range.mpr hj)
  · intro i hi j hj
    rw [fixedProbBuildCsr]
    dsimp only
    rw [if_neg (by norm_num), hk1]
    obtain ⟨row, hrow, hs⟩ := flatten_slice
      ((List.range preNum).map (fixedProbSelect true postNum postNum perm)) postNum
      (fun rr hrr => by
        rcases List.mem_map.mp hrr with ⟨a, _, rfl⟩
        exact hsellen a)
      i (by simpa using hi)
    rw [hs]
    rcases List.mem_map.mp hrow with ⟨a, _, rfl⟩
    rw [hsel a]
    exact ((hperm a (List.range postNum)).mem_iff).mpr (List.mem_range.mpr hj)

/-- The constant-`1/2` uniform stream: a draw sequence with every value
strictly inside `(0, 1)`. -/
def rngHalf : Rng := ⟨fun _ => 1/2, fun _ => 0, 0, 0⟩

theorem fixedProb_zero_and_one_edges_witness :
    ((∀ i l, (fun (_ : ℕ) (l : List ℕ) => l) i l |>.Perm l) ∧
     (∀ n, 0 < rngHalf.runif n) ∧ (∀ n, rngHalf.runif n < 1)) ∧
    (((fixedProbBuildConn 0 (1/2) true 1 1 rngHalf).1 = [] ∧
      (∀ i j, fixedProbBuildMat 0 (1/2) true 1 1 (fun _ => 1/2) (fun _ _ => 1/2) i j
         = false) ∧
      fixedProbBuildCoo 0 (1/2) true 1 1 (fun _ => []) (fun _ l => l) = ([], []) ∧
      (fixedProbBuildCsr 0 (1/2) true 1 1 (fun _ => []) (fun _ l => l)).1 = []) ∧
     ((∀ i, i < 1 → ∀ j, j < 1 →
         j ∈ (((fixedProbBuildConn 1 1 true 1 1 rngHalf).1.drop (i * 1)).take 1)) ∧
      (∀ i, i < 1 → ∀ j, j < 1 →
         fixedProbBuildMat 1 1 true 1 1 (fun _ => 1/2) (fun _ _ => 1/2) i j = true) ∧
      (∀ i, i < 1 → ∀ j, j < 1 →
         (i, j) ∈ ((fixedProbBuildCoo 1 1 true 1 1 (fun _ => []) (fun _ l => l)).1.zip
           (fixedProbBuildCoo 1 1 true 1 1 (fun _ => []) (fun _ l => l)).2)) ∧
      (∀ i, i < 1 → ∀ j, j < 1 →
         j ∈ (((fixedProbBuildCsr 1 1 true 1 1 (fun _ => []) (fun _ l => l)).1.drop
           (i * 1)).take 1)))) :=
  ⟨⟨fun _ l => List.Perm.refl l, fun _ => by norm_num [rngHalf], fun _ => by norm_num [rngHalf]⟩,
    fixedProb_zero_and_one_edges 1 1 (1/2) true rngHalf (fun _ => 1/2) (fun _ _ => 1/2)
      (fun _ => []) (fun _ l => l) (fun _ l => List.Perm.refl l)
      (fun _ => by norm_num [rngHalf]) (fun _ => by norm_num [rngHalf])
      (fun _ _ => by norm_num) (fun _ _ => by norm_num) (fun _ => by norm_num)⟩

/-- C4 (counterexample to the claim as stated): `build_conn` tests draws
with `<= prob`, and uniform draws in `[0, 1)` may be exactly `0`, so with
`prob = 0` and the all-zero draw stream a `1 × 1` population gets one edge
rather than zero. -/
theorem fixedProb_zero_claim_counterexample :
    (fixedProbBuildConn 0 1 true 1 1 rngZero).1 = [0] ∧
    (fixedProbBuildConn 0 1 true 1 1 rngZero).1 ≠ [] := by
  decide

/-! ## `SmallWorld` (lines 391-516)

`build_conn` asserts equal pre/post sizes, re-derives the compiled-loop
seed, and for a 1-D population builds a ring lattice over `N` nodes,
raising `ConnectorError` when `num_neighbor > N` and returning the
complete matrix (`np.ones`) when `num_neighbor == N`.  Otherwise each of
the lattice edges is offered for rewiring in neighbour-distance order.
The unbounded retry loop inside `_smallworld_rewire` is modelled with
fuel; running out of fuel is the distinguished outcome `SWFail.fuelOut`.
In the `directed` branch the source passes an unexpected keyword argument
`prob` to the compiled rewire helper, raising `TypeError` at the first
offered edge; only the undirected rewiring is modelled edge by edge. -/

inductive SWFail where
  | pyErr (e : PyErr)
  | fuelOut
  deriving DecidableEq

/-- The retry loop of `_smallworld_rewire` (lines 446-449): draw
`w = rng.choice(non_connected)` repeatedly while `include_self` is false
and `w == i`. -/
def rewireLoop (includeSelf : Bool) (i : ℕ) (nc : List ℕ) :
    ℕ → Rng → Option (ℤ × Rng)
  | 0, _ => none
  | fuel + 1, r =>
      let (w, r) := r.choice nc
      if includeSelf = false ∧ w = i then rewireLoop includeSelf i nc fuel r
      else some ((w : ℤ), r)

/-- `_smallworld_rewire` (lines 440-452): with probability `prob`
(`rng.random(1) < prob`) pick a replacement target among the nodes the row
is not connected to (`np.where(np.logical_not(all_j))[0]`), else return
`-1`; also return `-1` when at most one node is unconnected. -/
def smallworldRewire (prob : ℚ) (includeSelf : Bool) (i : ℕ) (allJ : List Bool)
    (fuel : ℕ) (r : Rng) : Option (ℤ × Rng) :=
  let (d, r) := r.random
  if d < prob then
    let nonConnected := (List.range allJ.length).filter (fun j => !(allJ.getD j false))
    if nonConnected.length ≤ 1 then some (-1, r)
    else rewireLoop includeSelf i nonConnected fuel r
  else some (-1, r)

/-- Row `u` of the matrix as the boolean vector `conn[u]`. -/
def rowList (m : Mat) (u N : ℕ) : List Bool := (List.range N).map (m u)

/-- The ring lattice (lines 479-485): for each `j ∈ [1, num_neighbor//2]`
set `conn[u, (u+j) % N]` and `conn[(u+j) % N, u]` for every node `u` (the
source performs the two vectorised writes `conn[nodes, targets] = True`
and `conn[targets, nodes] = True`; all writes set `True`, so the order is
immaterial). -/
def latticeMat (N halfK : ℕ) : Mat :=
  (List.range' 1 halfK).foldl
    (fun m j =>
      (List.range N).foldl
        (fun m u => matSet (matSet m u ((u + j) % N) true) ((u + j) % N) u true) m)
    matZeros

/-- One undirected rewiring offer (lines 505-511) for the lattice edge
`(u, v)`: on a successful rewire to `w`, remove `(u, v)` and add `(u, w)`
in both directions. -/
def swRewireStep (prob : ℚ) (includeSelf : Bool) (N fuel : ℕ)
    (st : Mat × Rng) (uv : ℕ × ℕ) : Except SWFail (Mat × Rng) :=
  match smallworldRewire prob includeSelf uv.1 (rowList st.1 uv.1 N) fuel st.2 with
  | none => .error .fuelOut
  | some (w, r) =>
      if w = -1 then .ok (st.1, r)
      else
        .ok (matSet (matSet (matSet (matSet st.1 uv.1 uv.2 false)
          uv.2 uv.1 false) uv.1 w.toNat true) w.toNat uv.1 true, r)

/-- `SmallWorld.build_conn` (lines 463-516), 1-D branch, with the
rewiring offers in the source's order: outer loop over the neighbour
distance `j`, inner loop over the nodes `u`, edge `(u, (u+j) % N)`. -/
def smallWorldBuildConn (numNeighbor : ℕ) (prob : ℚ)
    (directed includeSelf : Bool) (N fuel : ℕ) (r : Rng) : Except SWFail Mat :=
  if numNeighbor > N then .error (.pyErr .connectorError)
  else if numNeighbor = N then .ok (matOnes N)
  else
    let halfK := numNeighbor / 2
    let lattice := latticeMat N halfK
    if directed = true then
      -- `self._connect(prob=self.prob, ...)` passes an unexpected keyword
      -- to `_smallworld_rewire(i, all_j)` at the first offered edge.
      if 1 ≤ halfK ∧ 1 ≤ N then .error (.pyErr .typeError) else .ok lattice
    else
      let pairs := ((List.range' 1 halfK).map
        (fun j => (List.range N).map (fun u => (u, (u + j) % N)))).flatten
      match pairs.foldlM (swRewireStep prob includeSelf N fuel) (lattice, r) with
      | .ok st => .ok st.1
      | .error e => .error e

/-- With `prob = 0` a rewire offer always declines (`rng.random(1) < 0` is
false for draws in `[0, 1)`), consuming exactly one uniform draw. -/
theorem smallworldRewire_zero (includeSelf : Bool) (i : ℕ) (allJ : List Bool)
    (fuel : ℕ) (r : Rng) (h : ∀ n, 0 ≤ r.runif n) :
    smallworldRewire 0 includeSelf i allJ fuel r
      = some (-1, { r with upos := r.upos + 1 }) := by
  rw [smallworldRewire]
  dsimp [Rng.random]
  rw [if_neg (not_lt.mpr (h r.upos))]

theorem smallWorld_foldl_zero (includeSelf : Bool) (N fuel : ℕ)
    (pairs : List (ℕ × ℕ)) :
    ∀ (m : Mat) (r : Rng), (∀ n, 0 ≤ r.runif n) →
      ∃ r', pairs.foldlM (swRewireStep 0 includeSelf N fuel) (m, r) = .ok (m, r') := by
  induction pairs with
  | nil => intro m r _; exact ⟨r, rfl⟩
  | cons uv pairs ih =>
    intro m r h
    have hstep : swRewireStep 0 includeSelf N fuel (m, r) uv
        = .ok (m, { r with upos := r.upos + 1 }) := by
      rw [swRewireStep, smallworldRewire_zero includeSelf uv.1 _ fuel r h]
      rfl
    obtain ⟨r', hr'⟩ := ih m { r with upos := r.upos + 1 } (fun n => h n)
    refine ⟨r', ?_⟩
    rw [List.foldlM_cons, hstep]
    exact hr'

/-- C3: `SmallWorld(num_neighbor=4, prob=0, include_self=False)` over
`N = 20` nodes yields exactly the deterministic ring lattice for every
draw stream (with uniform draws in `[0, 1)`, i.e. nonnegative): `prob = 0`
declines every rewiring offer, and entry `[i][j]` of the result is true
iff `j ∈ {i-2, i-1, i+1, i+2} mod 20`. -/
theorem smallWorld_ring_lattice_20 (fuel : ℕ) (r : Rng)
    (h : ∀ n, 0 ≤ r.runif n) :
    smallWorldBuildConn 4 0 false false 20 fuel r = .ok (latticeMat 20 2) ∧
    ∀ i, i < 20 → ∀ j, j < 20 →
      latticeMat 20 2 i j =
        (decide (j = (i + 1) % 20) || decide (j = (i + 2) % 20) ||
         decide (j = (i + 18) % 20) || decide (j = (i + 19) % 20)) := by
  constructor
  · rw [smallWorldBuildConn]
    rw [if_neg (by decide), if_neg (by decide), if_neg (by decide)]
    dsimp only
    obtain ⟨r', hr'⟩ := smallWorld_foldl_zero false 20 fuel
      (((List.range' 1 (4 / 2)).map
        (fun j => (List.range 20).map (fun u => (u, (u + j) % 20)))).flatten)
      (latticeMat 20 (4 / 2)) r h
    rw [hr']
  · decide

theorem smallWorld_ring_lattice_20_witness :
    (∀ n, (0:ℚ) ≤ rngZero.runif n) ∧
    (smallWorldBuildConn 4 0 false false 20 0 rngZero = .ok (latticeMat 20 2) ∧
     ∀ i, i < 20 → ∀ j, j < 20 →
       latticeMat 20 2 i j =
         (decide (j = (i + 1) % 20) || decide (j = (i + 2) % 20) ||
          decide (j = (i + 18) % 20) || decide (j = (i + 19) % 20))) :=
  ⟨fun _ => le_refl 0, smallWorld_ring_lattice_20 0 rngZero (fun _ => le_refl 0)⟩

/-- C10: for a 1-D population of size `N` with `num_neighbor = N`,
`build_conn` returns the all-true `N × N` matrix (`np.ones`) — every
entry, including the diagonal — regardless of `include_self`, `prob`,
`directed` and the random stream: the complete-graph shortcut runs before
both the rewiring phase and any self-loop exclusion. -/
theorem smallWorld_complete_shortcut (N fuel : ℕ) (prob : ℚ)
    (directed includeSelf : Bool) (r : Rng) :
    smallWorldBuildConn N prob directed includeSelf N fuel r = .ok (matOnes N) ∧
    ∀ i, i < N → ∀ j, j < N → matOnes N i j = true := by
  constructor
  · rw [smallWorldBuildConn, if_neg (Nat.lt_irrefl N), if_pos rfl]
  · intro i hi j hj
    simp [matOnes, hi, hj]

theorem smallWorld_complete_shortcut_witness :
    smallWorldBuildConn 3 (1/2) false false 3 5 rngZero = .ok (matOnes 3) ∧
    matOnes 3 0 0 = true :=
  ⟨(smallWorld_complete_shortcut 3 5 (1/2) false false rngZero).1,
   (smallWorld_complete_shortcut 3 5 (1/2) false false rngZero).2 0 (by decide) 0 (by decide)⟩

/-! ## `GaussianProb.build_conn` (lines 328-388) -/

/-- `GaussianProb.build_conn`, final stage (lines 378-388).  The Gaussian
kernel matrix `prob_mat` (lines 329-377: encoded grid coordinates,
optional periodic wrap, `exp(-(‖d‖/σ)²/2)`) is a real-valued analytic
computation; it enters here as the `probMat` input, over which the
theorems quantify.  Modelled exactly are the final steps: optional
normalisation by the maximum entry (`prob_mat /= prob_mat.max()`, the
maximum taken as a fold — the kernel's entries are positive, so the fold's
`0` base is neutral), thresholding `prob_mat >= rng.random(shape)`, and
`np.fill_diagonal(conn_mat, False)` when `include_self` is false. -/
def gaussianProbBuildConn (probMat : ℕ → ℕ → ℚ) (draws : ℕ → ℕ → ℚ)
    (normalize includeSelf : Bool) (n : ℕ) : Mat :=
  let maxEntry := ((List.range n).map (fun i =>
    ((List.range n).map (fun j => probMat i j)).foldl max 0)).foldl max 0
  let pm := if normalize then fun i j => probMat i j / maxEntry else probMat
  let conn : Mat := fun i j =>
    (decide (i < n) && decide (j < n)) && decide (pm i j ≥ draws i j)
  if includeSelf = false then fillDiagMat conn n else conn

/-- C8: for every `GaussianProb` connector with `include_self = False`,
every kernel matrix, every draw matrix and every population size, the
dense matrix returned by `build_conn` is false at every diagonal entry:
the diagonal is zeroed after thresholding. -/
theorem gaussianProb_diag_false (probMat draws : ℕ → ℕ → ℚ)
    (normalize : Bool) (n i : ℕ) (hi : i < n) :
    gaussianProbBuildConn probMat draws normalize false n i i = false := by
  rw [gaussianProbBuildConn]
  rw [if_pos rfl, fillDiagMat]
  exact if_pos ⟨rfl, hi⟩

theorem gaussianProb_diag_false_witness :
    1 < 2 ∧
    gaussianProbBuildConn (fun _ _ => 1) (fun _ _ => 0) true false 2 1 1 = false :=
  ⟨by decide, gaussianProb_diag_false (fun _ _ => 1) (fun _ _ => 0) true 2 1 (by decide)⟩

/-! ## `ScaleFreeBA.build_conn` (lines 534-617)

The preferential-attachment sampler `_random_subset` (lines 568-575) draws
from `repeated_nodes` until `m` distinct values are collected; it is
modelled by the oracle `pick`, constrained exactly by what the growth loop
guarantees: whenever the pool contains the seed nodes `[0, m)`, `pick`
returns `m` distinct elements of the pool (`list(set)` of the Python
set). -/

/-- Vectorised attachment write (lines 604-607):
`conn[[source]*m, targets] = True`, and the symmetric write when the graph
is undirected. -/
def writeEdges (m : Mat) (s : ℕ) (ts : List ℕ) (directed : Bool) : Mat :=
  fun i j =>
    if i = s ∧ j ∈ ts then true
    else if directed = false ∧ j = s ∧ i ∈ ts then true
    else m i j

structure BAState where
  conn : Mat
  repeated : List ℕ
  targets : List ℕ

/-- One growth step (lines 602-615) for the node `source`: write its `m`
attachment edges, extend `repeated_nodes` with the targets and with `m`
copies of `source`, and draw the next `m` distinct targets from
`repeated_nodes`. -/
def baStep (m : ℕ) (directed : Bool) (pick : List ℕ → ℕ → List ℕ)
    (st : BAState) (source : ℕ) : BAState :=
  let conn := writeEdges st.conn source st.targets directed
  let rep := st.repeated ++ st.targets ++ List.replicate m source
  ⟨conn, rep, pick rep m⟩

/-- `ScaleFreeBA.build_conn` (lines 582-617): require `1 ≤ m < n`
(`ConnectorError` otherwise), then grow `source = m, …, n-1` starting from
targets `[0, m)` and an empty `repeated_nodes` list. -/
def scaleFreeBABuildConn (m N : ℕ) (directed : Bool)
    (pick : List ℕ → ℕ → List ℕ) : Except PyErr Mat :=
  if m < 1 ∨ N ≤ m then .error .connectorError
  else .ok (((List.range' m (N - m)).foldl (baStep m directed pick)
    ⟨matZeros, [], List.range m⟩).conn)

/-- Entrywise matrix ordering: every `true` stays `true`. -/
def MatLe (a b : Mat) : Prop := ∀ i j, a i j = true → b i j = true

theorem writeEdges_le (mat : Mat) (s : ℕ) (ts : List ℕ) (d : Bool) :
    MatLe mat (writeEdges mat s ts d) := by
  intro i j h
  rw [writeEdges]
  split
  · rfl
  · split
    · rfl
    · exact h

theorem MatLe.trans {a b c : Mat} (h1 : MatLe a b) (h2 : MatLe b c) : MatLe a c :=
  fun i j h => h2 i j (h1 i j h)

theorem baLoop_le (m : ℕ) (directed : Bool) (pick : List ℕ → ℕ → List ℕ)
    (srcs : List ℕ) :
    ∀ st : BAState, MatLe st.conn ((srcs.foldl (baStep m directed pick) st).conn) := by
  induction srcs with
  | nil => intro st; exact fun i j h => h
  | cons s srcs ih =>
    intro st
    rw [List.foldl_cons]
    exact MatLe.trans (writeEdges_le st.conn s st.targets directed)
      (ih (baStep m directed pick st s))

theorem filter_length_mono (l : List ℕ) (p q : ℕ → Bool)
    (h : ∀ x ∈ l, p x = true → q x = true) :
    (l.filter p).length ≤ (l.filter q).length := by
  induction l with
  | nil => simp
  | cons a t ih =>
    have ih' := ih (fun x hx => h x (by simp [hx]))
    rw [List.filter_cons, List.filter_cons]
    by_cases hp : p a = true
    · rw [if_pos hp, if_pos (h a (by simp) hp)]
      simpa using ih'
    · rw [if_neg hp]
      split
      · exact Nat.le_succ_of_le ih'
      · exact ih'

theorem rowCount_mono {a b : Mat} (h : MatLe a b) (v N : ℕ) :
    rowCount a v N ≤ rowCount b v N :=
  filter_length_mono _ _ _ (fun x _ hx => h v x hx)

theorem rowCount_ge (mat : Mat) (v N : ℕ) (ts : List ℕ) (hnd : ts.Nodup)
    (hlt : ∀ t ∈ ts, t < N) (htrue : ∀ t ∈ ts, mat v t = true) :
    ts.length ≤ rowCount mat v N := by
  have h1 : ts.length = ts.toFinset.card := (List.toFinset_card_of_nodup hnd).symm
  have h2 : ts.toFinset ⊆ ((List.range N).filter (fun j => mat v j)).toFinset := by
    intro x hx
    have hx' : x ∈ ts := List.mem_toFinset.mp hx
    exact List.mem_toFinset.mpr
      (List.mem_filter.mpr ⟨List.mem_range.mpr (hlt x hx'), htrue x hx'⟩)
  calc ts.length = ts.toFinset.card := h1
    _ ≤ ((List.range N).filter (fun j => mat v j)).toFinset.card :=
        Finset.card_le_card h2
    _ ≤ ((List.range N).filter (fun j => mat v j)).length := List.toFinset_card_le _
    _ = rowCount mat v N := rfl

/-- The growth-loop invariant before processing node `lo`: the pending
targets are `m` distinct nodes below `lo`, `repeated_nodes` only holds
nodes below `lo`, and the seed nodes `[0, m)` are available in the pool. -/
def BAInv (m lo : ℕ) (st : BAState) : Prop :=
  st.targets.Nodup ∧ st.targets.length = m ∧ (∀ t ∈ st.targets, t < lo) ∧
  (∀ x ∈ st.repeated, x < lo) ∧ (∀ i, i < m → i ∈ st.repeated ++ st.targets)

theorem baStep_inv (m lo : ℕ) (directed : Bool) (pick : List ℕ → ℕ → List ℕ)
    (hpick : ∀ seq, (∀ i, i < m → i ∈ seq) →
      ((pick seq m).Nodup ∧ (pick seq m).length = m ∧ ∀ x ∈ pick seq m, x ∈ seq))
    (st : BAState) (hinv : BAInv m lo st) :
    BAInv m (lo + 1) (baStep m directed pick st lo) := by
  obtain ⟨hnd, hlen, htlt, hrlt, hseed⟩ := hinv
  have hseed' : ∀ i, i < m →
      i ∈ st.repeated ++ st.targets ++ List.replicate m lo := by
    intro i hi
    exact List.mem_append_left _ (hseed i hi)
  obtain ⟨pnd, plen, pmem⟩ := hpick _ hseed'
  have hreplt : ∀ x ∈ st.repeated ++ st.targets ++ List.replicate m lo, x < lo + 1 := by
    intro x hx
    rcases List.mem_append.mp hx with h | h
    · rcases List.mem_append.mp h with h | h
      · exact Nat.lt_succ_of_lt (hrlt x h)
      · exact Nat.lt_succ_of_lt (htlt x h)
    · rw [List.eq_of_mem_replicate h]
      exact Nat.lt_succ_self lo
  refine ⟨pnd, plen, ?_, hreplt, ?_⟩
  · intro t ht
    exact hreplt t (pmem t ht)
  · intro i hi
    exact List.mem_append_left _ (hseed' i hi)

theorem baLoop_deg (m N : ℕ) (directed : Bool) (pick : List ℕ → ℕ → List ℕ)
    (hpick : ∀ seq, (∀ i, i < m → i ∈ seq) →
      ((pick seq m).Nodup ∧ (pick seq m).length = m ∧ ∀ x ∈ pick seq m, x ∈ seq))
    (len : ℕ) :
    ∀ (lo : ℕ) (st : BAState), BAInv m lo st → lo + len ≤ N →
      ∀ v, lo ≤ v → v < lo + len →
        m ≤ rowCount (((List.range' lo len).foldl
          (baStep m directed pick) st).conn) v N := by
  induction len with
  | zero =>
    intro lo st _ _ v hv1 hv2
    omega
  | succ len ih =>
    intro lo st hinv hle v hv1 hv2
    rw [List.range'_succ, List.foldl_cons]
    rcases Nat.eq_or_lt_of_le hv1 with rfl | hlt
    · have hrow : ∀ t ∈ st.targets, (baStep m directed pick st lo).conn lo t = true := by
        intro t ht
        show writeEdges st.conn lo st.targets directed lo t = true
        rw [writeEdges, if_pos ⟨rfl, ht⟩]
      have h1 : m ≤ rowCount ((baStep m directed pick st lo).conn) lo N := by
        rw [← hinv.2.1]
        exact rowCount_ge _ lo N st.targets hinv.1
          (fun t ht => Nat.lt_of_lt_of_le (hinv.2.2.1 t ht) (by omega)) hrow
      exact Nat.le_trans h1
        (rowCount_mono (baLoop_le m directed pick _ _) lo N)
    · exact ih (lo + 1) (baStep m directed pick st lo)
        (baStep_inv m lo directed pick hpick st hinv) (by omega) v hlt (by omega)

/-- C7: for `ScaleFreeBA(m=2)` over `N = 10` nodes, directed or
undirected, every node with index `≥ 2` has in-degree plus out-degree at
least `2` in the returned matrix: its own attachment step writes `2`
distinct out-edges, and later growth steps only add entries. -/
theorem scaleFreeBA_min_degree (directed : Bool) (pick : List ℕ → ℕ → List ℕ)
    (hpick : ∀ seq, (∀ i, i < 2 → i ∈ seq) →
      ((pick seq 2).Nodup ∧ (pick seq 2).length = 2 ∧ ∀ x ∈ pick seq 2, x ∈ seq)) :
    ∃ conn, scaleFreeBABuildConn 2 10 directed pick = .ok conn ∧
      ∀ v, 2 ≤ v → v < 10 → 2 ≤ rowCount conn v 10 + colCount conn v 10 := by
  refine ⟨_, by rw [scaleFreeBABuildConn, if_neg (by decide)], ?_⟩
  intro v hv1 hv2
  have hinv : BAInv 2 2 ⟨matZeros, [], List.range 2⟩ := by
    refine ⟨List.nodup_range 2, List.length_range 2, ?_, ?_, ?_⟩
    · intro t ht
      exact List.mem_range.mp ht
    · intro x hx
      simp at hx
    · intro i hi
      simpa using List.mem_range.mpr hi
  have := baLoop_deg 2 10 directed pick hpick 8 2 ⟨matZeros, [], List.range 2⟩
    hinv (by omega) v hv1 (by omega)
  exact Nat.le_trans this (Nat.le_add_right _ _)

theorem scaleFreeBA_min_degree_witness :
    (∀ seq : List ℕ, (∀ i, i < 2 → i ∈ seq) →
      (((fun (_ : List ℕ) (_ : ℕ) => List.range 2) seq 2).Nodup ∧
       ((fun (_ : List ℕ) (_ : ℕ) => List.range 2) seq 2).length = 2 ∧
       ∀ x ∈ (fun (_ : List ℕ) (_ : ℕ) => List.range 2) seq 2, x ∈ seq)) ∧
    ∃ conn, scaleFreeBABuildConn 2 10 false (fun _ _ => List.range 2) = .ok conn ∧
      ∀ v, 2 ≤ v → v < 10 → 2 ≤ rowCount conn v 10 + colCount conn v 10 :=
  ⟨fun seq h => ⟨List.nodup_range 2, List.length_range 2,
      fun x hx => h x (List.mem_range.mp hx)⟩,
   scaleFreeBA_min_degree false (fun _ _ => List.range 2)
     (fun seq h => ⟨List.nodup_range 2, List.length_range 2,
       fun x hx => h x (List.mem_range.mp hx)⟩)⟩

/-! ## `ProbDist` (lines 832-996)

`build_conn` raises `ValueError` on a pre/post dimensionality mismatch,
re-derives the compiled-loop seed, dispatches on the dimensionality
(`NotImplementedError` outside 1-4), and runs `_connect_1d` …
`_connect_4d` over every pre-coordinate in row-major order (the
`np.meshgrid`/`moveaxis`/`flatten` enumeration), concatenating the emitted
`(pre, post)` index pairs.  The `_connect_2d`, `_connect_3d` and
`_connect_4d` bodies are textually identical up to loop-nesting depth and
are modelled once, over the row-major list of post coordinates.  Each body
computes `normalized_pos` — the axis-rescaled coordinates — and then never
uses it: the distance actually tested is on the raw grid coordinates.  The
float comparisons `sqrt(s) <= dist` and `d == 0` are modelled exactly by
`0 ≤ dist ∧ s ≤ dist²` and `s = 0`. -/

/-- `pos2ind` (lines 832-837): row-major linear index,
`Σᵢ pos[i] · prod(size[i+1:])`. -/
def pos2ind (pos size : List ℕ) : ℕ :=
  (List.range pos.length).foldl
    (fun idx i => idx + pos.getD i 0 * ((size.drop (i + 1)).foldl (· * ·) 1)) 0

/-- `np.abs` on a rational value (kept as a primitive conditional so that
concrete runs evaluate inside the kernel). -/
def ratAbs (q : ℚ) : ℚ := if q < 0 then -q else q

/-- Squared Euclidean distance between coordinate tuples. -/
def sqDist (a b : List ℕ) : ℚ :=
  (List.zipWith (fun x y => ((x : ℚ) - (y : ℚ)) * ((x : ℚ) - (y : ℚ))) a b).sum

/-- Manhattan distance (`np.sum(np.abs(pre_pos - post_pos))`, 1-D body). -/
def manhattan (a b : List ℕ) : ℚ :=
  (List.zipWith (fun x y => ratAbs ((x : ℚ) - (y : ℚ))) a b).sum

/-- `sqrt s ≤ q`, expressed without square roots (`s` a squared
distance): `0 ≤ q ∧ s ≤ q·q`. -/
def sqrtLe (s q : ℚ) : Bool := decide (0 ≤ q) && decide (s ≤ q * q)

/-- The `normalized_pos` values (lines 876-880, 896-900, …):
`pre_pos[i] * post_len / pre_len` per axis — computed by every
`_connect_*d` body and then never used. -/
def normalizedPos (prePos preSize postSize : List ℕ) (nDim : ℕ) : List ℚ :=
  (List.range nDim).map (fun i =>
    (prePos.getD i 0 : ℚ) * (postSize.getD i 0 : ℚ) / (preSize.getD i 0 : ℚ))

/-- All coordinate tuples of a grid in row-major order (the nested
`for i ... for j ...` loops; for the pre side, the
`meshgrid`/`moveaxis`/`flatten` enumeration of lines 988-992). -/
def gridPositions : List ℕ → List (List ℕ)
  | [] => [[]]
  | d :: ds => ((List.range d).map (fun i => (gridPositions ds).map (fun p => i :: p))).flatten

/-- One candidate of the `_connect_*d` inner loop: if the distance test
`dOk` passes, skip exact-overlap positions when `include_self` is false,
otherwise draw one uniform value and emit the pair when it is `<= prob`. -/
def probDistScanStep (dOk dZero : List ℕ → Bool) (prob : ℚ) (includeSelf : Bool)
    (prePos preSize postSize : List ℕ) (st : (List ℕ × List ℕ) × Rng)
    (postPos : List ℕ) : (List ℕ × List ℕ) × Rng :=
  if dOk postPos then
    if dZero postPos ∧ includeSelf = false then st
    else
      let (u, r) := st.2.random
      if u ≤ prob then
        ((st.1.1 ++ [pos2ind prePos preSize],
          st.1.2 ++ [pos2ind postPos postSize]), r)
      else (st.1, r)
  else st

/-- The shared inner loop of the `_connect_*d` bodies over the row-major
post coordinates. -/
def probDistScan (dOk dZero : List ℕ → Bool) (prob : ℚ) (includeSelf : Bool)
    (prePos preSize postSize : List ℕ) (positions : List (List ℕ)) (r : Rng) :
    (List ℕ × List ℕ) × Rng :=
  positions.foldl
    (probDistScanStep dOk dZero prob includeSelf prePos preSize postSize)
    (([], []), r)

/-- `_connect_1d` (lines 872-890): participation gate, then the scan over
`post_size[0]` with the Manhattan distance on the raw coordinates. -/
def probDistConnect1d (dist prob preRatio : ℚ) (includeSelf : Bool)
    (prePos preSize postSize : List ℕ) (r : Rng) : (List ℕ × List ℕ) × Rng :=
  let (g, r) := r.random
  if g < preRatio then
    let _np := normalizedPos prePos preSize postSize 1
    probDistScan (fun q => decide (manhattan prePos q ≤ dist))
      (fun q => decide (manhattan prePos q = 0)) prob includeSelf
      prePos preSize postSize ((List.range (postSize.getD 0 0)).map (fun i => [i])) r
  else (([], []), r)

/-- `_connect_2d`/`_connect_3d`/`_connect_4d` (lines 892-956):
participation gate, then the scan over all post coordinates with the
Euclidean distance `sqrt(Σ (pre - post)²)` on the raw coordinates. -/
def probDistConnectNd (dist prob preRatio : ℚ) (includeSelf : Bool)
    (prePos preSize postSize : List ℕ) (r : Rng) : (List ℕ × List ℕ) × Rng :=
  let (g, r) := r.random
  if g < preRatio then
    let _np := normalizedPos prePos preSize postSize preSize.length
    probDistScan (fun q => sqrtLe (sqDist prePos q) dist)
      (fun q => decide (sqDist prePos q = 0)) prob includeSelf
      prePos preSize postSize (gridPositions postSize) r
  else (([], []), r)

/-- The dimensionality dispatch of `build_conn` (lines 972-982): the 1-D
body uses the Manhattan distance, the 2-D/3-D/4-D bodies the Euclidean
one. -/
def probDistDispatch (dist prob preRatio : ℚ) (includeSelf : Bool)
    (preSize postSize : List ℕ) (prePos : List ℕ) (r : Rng) :
    (List ℕ × List ℕ) × Rng :=
  if preSize.length = 1 then
    probDistConnect1d dist prob preRatio includeSelf prePos preSize postSize r
  else
    probDistConnectNd dist prob preRatio includeSelf prePos preSize postSize r

/-- One pre-coordinate of the `build_conn` outer loop (lines 991-995):
run the per-row body and concatenate the emitted index pairs. -/
def probDistBuildStep (connect : List ℕ → Rng → (List ℕ × List ℕ) × Rng)
    (st : (List ℕ × List ℕ) × Rng) (prePos : List ℕ) :
    (List ℕ × List ℕ) × Rng :=
  let res := connect prePos st.2
  ((st.1.1 ++ res.1.1, st.1.2 ++ res.1.2), res.2)

/-- `ProbDist.build_conn` (lines 963-996). -/
def probDistBuildConn (dist prob preRatio : ℚ) (includeSelf : Bool)
    (preSize postSize : List ℕ) (r : Rng) : Except PyErr (List ℕ × List ℕ) :=
  if preSize.length ≠ postSize.length then .error .valueError
  else if preSize.length = 0 ∨ 5 ≤ preSize.length then .error .notImplementedError
  else
    .ok (((gridPositions preSize).foldl
      (probDistBuildStep
        (probDistDispatch dist prob preRatio includeSelf preSize postSize))
      (([], []), r)).1)

/-- The distance the specification text describes, written from the
spec's words for comparison with the source: Manhattan distance after
axis-wise rescaling of the pre-coordinate by the post/pre axis-length
ratio (1-D case). -/
def specRescaledManhattan (prePos postPos preSize postSize : List ℕ) : ℚ :=
  ((List.range prePos.length).map (fun i =>
    ratAbs ((prePos.getD i 0 : ℚ) * (postSize.getD i 0 : ℚ) / (preSize.getD i 0 : ℚ)
      - (postPos.getD i 0 : ℚ)))).sum

/-- Flattening a list of singleton blocks is the list of their elements. -/
theorem flatten_map_singleton (l : List ℕ) :
    ((l.map (fun i => ([[i]] : List (List ℕ)))).flatten) = l.map (fun i => [i]) := by
  induction l with
  | nil => rfl
  | cons a t ih => simp [ih]

/-- Over a 1-axis grid, `gridPositions` is exactly the post-coordinate
list `[(0,), (1,), …]` that `_connect_1d` iterates over. -/
theorem gridPositions_one (dims : List ℕ) (h : dims.length = 1) :
    gridPositions dims = (List.range (dims.getD 0 0)).map (fun i => [i]) := by
  cases dims with
  | nil => simp at h
  | cons d rest =>
    cases rest with
    | nil =>
      show gridPositions [d] = (List.range d).map (fun i => [i])
      rw [gridPositions]
      exact flatten_map_singleton (List.range d)
    | cons e rest' => simp at h

/-- Every member of `gridPositions dims` is a coordinate tuple of the
grid's dimensionality. -/
theorem mem_gridPositions_length (dims : List ℕ) :
    ∀ p ∈ gridPositions dims, p.length = dims.length := by
  induction dims with
  | nil =>
    intro p hp
    rw [gridPositions] at hp
    simp at hp
    subst hp
    rfl
  | cons d ds ih =>
    intro p hp
    rw [gridPositions] at hp
    rcases List.mem_flatten.mp hp with ⟨l, hl, hpl⟩
    rcases List.mem_map.mp hl with ⟨i, _, rfl⟩
    rcases List.mem_map.mp hpl with ⟨q, hq, rfl⟩
    simp [ih q hq]

theorem probDistScan_fold_all (dOk dZero : List ℕ → Bool) (prob : ℚ)
    (incl : Bool) (prePos preSize postSize : List ℕ)
    (all : List (List ℕ)) (positions : List (List ℕ)) :
    (∀ q ∈ positions, q ∈ all) →
    ∀ (xs ys : List ℕ) (r : Rng), xs.length = ys.length →
      (∀ e ∈ xs.zip ys, e.1 = pos2ind prePos preSize ∧
        ∃ qc, qc ∈ all ∧ e.2 = pos2ind qc postSize ∧ dOk qc = true) →
      ((positions.foldl
          (probDistScanStep dOk dZero prob incl prePos preSize postSize)
          ((xs, ys), r)).1.1.length
        = (positions.foldl
          (probDistScanStep dOk dZero prob incl prePos preSize postSize)
          ((xs, ys), r)).1.2.length) ∧
      ∀ e ∈ ((positions.foldl
          (probDistScanStep dOk dZero prob incl prePos preSize postSize)
          ((xs, ys), r)).1.1.zip
        (positions.foldl
          (probDistScanStep dOk dZero prob incl prePos preSize postSize)
          ((xs, ys), r)).1.2),
        e.1 = pos2ind prePos preSize ∧
        ∃ qc, qc ∈ all ∧ e.2 = pos2ind qc postSize ∧ dOk qc = true := by
  induction positions with
  | nil => intro _ xs ys r hlen hall; exact ⟨hlen, hall⟩
  | cons q qs ih =>
    intro hsub xs ys r hlen hall
    have hsub' : ∀ x ∈ qs, x ∈ all := fun x hx => hsub x (by simp [hx])
    rw [List.foldl_cons]
    by_cases h1 : dOk q = true
    · by_cases h2 : dZero q = true ∧ incl = false
      · rw [show probDistScanStep dOk dZero prob incl prePos preSize postSize
            ((xs, ys), r) q = ((xs, ys), r) from by
          rw [probDistScanStep, if_pos h1, if_pos h2]]
        exact ih hsub' xs ys r hlen hall
      · by_cases h3 : r.runif r.upos ≤ prob
        · rw [show probDistScanStep dOk dZero prob incl prePos preSize postSize
              ((xs, ys), r) q
              = ((xs ++ [pos2ind prePos preSize], ys ++ [pos2ind q postSize]),
                 { r with upos := r.upos + 1 }) from by
            rw [probDistScanStep, if_pos h1, if_neg h2]
            dsimp [Rng.random]
            rw [if_pos h3]]
          apply ih hsub'
          · simp [hlen]
          · intro e hme
            rw [List.zip_append hlen] at hme
            rcases List.mem_append.mp hme with h | h
            · exact hall e h
            · have he : e = (pos2ind prePos preSize, pos2ind q postSize) := by
                simpa using h
              subst he
              exact ⟨rfl, q, hsub q (by simp), rfl, h1⟩
        · rw [show probDistScanStep dOk dZero prob incl prePos preSize postSize
              ((xs, ys), r) q = ((xs, ys), { r with upos := r.upos + 1 }) from by
            rw [probDistScanStep, if_pos h1, if_neg h2]
            dsimp [Rng.random]
            rw [if_neg h3]]
          exact ih hsub' xs ys _ hlen hall
    · rw [show probDistScanStep dOk dZero prob incl prePos preSize postSize
          ((xs, ys), r) q = ((xs, ys), r) from by
        rw [probDistScanStep, if_neg h1]]
      exact ih hsub' xs ys r hlen hall

theorem probDistConnect1d_all (dist prob preRatio : ℚ) (incl : Bool)
    (prePos preSize postSize : List ℕ) (r : Rng) :
    ((probDistConnect1d dist prob preRatio incl prePos preSize postSize r).1.1.length
      = (probDistConnect1d dist prob preRatio incl prePos preSize postSize r).1.2.length) ∧
    ∀ e ∈ ((probDistConnect1d dist prob preRatio incl prePos preSize postSize r).1.1.zip
      (probDistConnect1d dist prob preRatio incl prePos preSize postSize r).1.2),
      e.1 = pos2ind prePos preSize ∧
      ∃ qc, qc ∈ (List.range (postSize.getD 0 0)).map (fun i => [i]) ∧
        e.2 = pos2ind qc postSize ∧ manhattan prePos qc ≤ dist := by
  rw [probDistConnect1d]
  dsimp [Rng.random]
  split
  · rw [probDistScan]
    obtain ⟨hl, ha⟩ := probDistScan_fold_all
      (fun q => decide (manhattan prePos q ≤ dist))
      (fun q => decide (manhattan prePos q = 0)) prob incl prePos preSize postSize
      ((List.range (postSize.getD 0 0)).map (fun i => [i]))
      ((List.range (postSize.getD 0 0)).map (fun i => [i]))
      (fun _ h => h)
      [] [] { r with upos := r.upos + 1 } rfl (by simp)
    refine ⟨hl, fun e he => ?_⟩
    obtain ⟨h1, qc, hmem, h2, h3⟩ := ha e he
    exact ⟨h1, qc, hmem, h2, of_decide_eq_true h3⟩
  · simp

theorem probDistConnectNd_all (dist prob preRatio : ℚ) (incl : Bool)
    (prePos preSize postSize : List ℕ) (r : Rng) :
    ((probDistConnectNd dist prob preRatio incl prePos preSize postSize r).1.1.length
      = (probDistConnectNd dist prob preRatio incl prePos preSize postSize r).1.2.length) ∧
    ∀ e ∈ ((probDistConnectNd dist prob preRatio incl prePos preSize postSize r).1.1.zip
      (probDistConnectNd dist prob preRatio incl prePos preSize postSize r).1.2),
      e.1 = pos2ind prePos preSize ∧
      ∃ qc, qc ∈ gridPositions postSize ∧
        e.2 = pos2ind qc postSize ∧ 0 ≤ dist ∧ sqDist prePos qc ≤ dist * dist := by
  rw [probDistConnectNd]
  dsimp [Rng.random]
  split
  · rw [probDistScan]
    obtain ⟨hl, ha⟩ := probDistScan_fold_all
      (fun q => sqrtLe (sqDist prePos q) dist)
      (fun q => decide (sqDist prePos q = 0)) prob incl prePos preSize postSize
      (gridPositions postSize) (gridPositions postSize) (fun _ h => h)
      [] [] { r with upos := r.upos + 1 } rfl (by simp)
    refine ⟨hl, fun e he => ?_⟩
    obtain ⟨h1, qc, hmem, h2, h3⟩ := ha e he
    rw [sqrtLe, Bool.and_eq_true, decide_eq_true_eq, decide_eq_true_eq] at h3
    exact ⟨h1, qc, hmem, h2, h3⟩
  · simp

theorem probDistBuild_fold_all (connect : List ℕ → Rng → (List ℕ × List ℕ) × Rng)
    (E : ℕ × ℕ → Prop) (l : List (List ℕ))
    (hconnect : ∀ pc ∈ l, ∀ r0,
      ((connect pc r0).1.1.length = (connect pc r0).1.2.length) ∧
      ∀ e ∈ ((connect pc r0).1.1.zip (connect pc r0).1.2), E e) :
    ∀ (xs ys : List ℕ) (r : Rng), xs.length = ys.length →
      (∀ e ∈ xs.zip ys, E e) →
      ((l.foldl (probDistBuildStep connect) ((xs, ys), r)).1.1.length
        = (l.foldl (probDistBuildStep connect) ((xs, ys), r)).1.2.length) ∧
      ∀ e ∈ ((l.foldl (probDistBuildStep connect) ((xs, ys), r)).1.1.zip
        (l.foldl (probDistBuildStep connect) ((xs, ys), r)).1.2), E e := by
  induction l with
  | nil => intro xs ys r h1 h2; exact ⟨h1, h2⟩
  | cons pc l ih =>
    intro xs ys r h1 h2
    rw [List.foldl_cons]
    have hc := hconnect pc (by simp) r
    rw [show probDistBuildStep connect ((xs, ys), r) pc
        = ((xs ++ (connect pc r).1.1, ys ++ (connect pc r).1.2), (connect pc r).2)
        from rfl]
    apply ih (fun pc' hpc' r0 => hconnect pc' (by simp [hpc']) r0)
    · simp [h1, hc.1]
    · intro e hme
      rw [List.zip_append h1] at hme
      rcases List.mem_append.mp hme with h | h
      · exact h2 e h
      · exact hc.2 e h

/-- C2 (amended): for every `ProbDist` connector over equal-dimensionality
shapes (1-4 axes), the distance tested against `dist` in `build_conn` is
computed on the RAW grid coordinates — Manhattan for one axis, Euclidean
(`sqrt` of the squared distance, i.e. `0 ≤ dist ∧ d² ≤ dist²`) for 2-4
axes.  The axis-rescaled coordinates are computed into `normalized_pos`
but never used.  Every emitted edge is the `pos2ind`-encoding of a pair
of actual grid coordinates — members of `gridPositions` of the pre/post
shapes, of full dimensionality, so the distance is over the complete
coordinate tuples — whose raw distance is `≤ dist`. -/
theorem probDist_raw_distance_only (dist prob preRatio : ℚ) (incl : Bool)
    (preSize postSize : List ℕ) (r : Rng) (out : List ℕ × List ℕ)
    (hok : probDistBuildConn dist prob preRatio incl preSize postSize r = .ok out) :
    preSize.length = postSize.length ∧
    ∀ e ∈ out.1.zip out.2, ∃ pc qc,
      pc ∈ gridPositions preSize ∧ qc ∈ gridPositions postSize ∧
      pc.length = preSize.length ∧ qc.length = postSize.length ∧
      e.1 = pos2ind pc preSize ∧ e.2 = pos2ind qc postSize ∧
      (if preSize.length = 1 then manhattan pc qc ≤ dist
       else 0 ≤ dist ∧ sqDist pc qc ≤ dist * dist) := by
  by_cases hlen : preSize.length ≠ postSize.length
  · rw [probDistBuildConn, if_pos hlen] at hok
    exact absurd hok (by simp)
  · have hlen' : preSize.length = postSize.length := not_not.mp hlen
    by_cases hdims : preSize.length = 0 ∨ 5 ≤ preSize.length
    · rw [probDistBuildConn, if_neg hlen, if_pos hdims] at hok
      exact absurd hok (by simp)
    · rw [probDistBuildConn, if_neg hlen, if_neg hdims] at hok
      have hout : out
          = ((gridPositions preSize).foldl
            (probDistBuildStep
              (probDistDispatch dist prob preRatio incl preSize postSize))
            (([], []), r)).1 := (Except.ok.inj hok).symm
      subst hout
      refine ⟨hlen',
        (probDistBuild_fold_all _ _ (gridPositions preSize) ?_ [] [] r rfl
          (by simp)).2⟩
      intro pc hpc r0
      rw [probDistDispatch]
      by_cases hdim : preSize.length = 1
      · rw [if_pos hdim]
        have hpost1 : postSize.length = 1 := hlen' ▸ hdim
        obtain ⟨hl, ha⟩ := probDistConnect1d_all dist prob preRatio incl pc
          preSize postSize r0
        refine ⟨hl, fun e he => ?_⟩
        obtain ⟨h1, qc, hqmem, h2, h3⟩ := ha e he
        have hqmem' : qc ∈ gridPositions postSize := by
          rw [gridPositions_one postSize hpost1]
          exact hqmem
        exact ⟨pc, qc, hpc, hqmem',
          mem_gridPositions_length preSize pc hpc,
          mem_gridPositions_length postSize qc hqmem',
          h1, h2, by rw [if_pos hdim]; exact h3⟩
      · rw [if_neg hdim]
        obtain ⟨hl, ha⟩ := probDistConnectNd_all dist prob preRatio incl pc
          preSize postSize r0
        refine ⟨hl, fun e he => ?_⟩
        obtain ⟨h1, qc, hqmem, h2, h3⟩ := ha e he
        exact ⟨pc, qc, hpc, hqmem,
          mem_gridPositions_length preSize pc hpc,
          mem_gridPositions_length postSize qc hqmem,
          h1, h2, by rw [if_neg hdim]; exact h3⟩

theorem probDist_raw_distance_only_witness :
    (probDistBuildConn 0 1 1 true [2] [4] rngZero = .ok ([0, 1], [0, 1])) ∧
    ((1, 1) ∈ (([0, 1] : List ℕ).zip ([0, 1] : List ℕ))) ∧
    ([2] : List ℕ).length = ([4] : List ℕ).length ∧
    (∃ pc qc, pc ∈ gridPositions [2] ∧ qc ∈ gridPositions [4] ∧
      pc.length = ([2] : List ℕ).length ∧ qc.length = ([4] : List ℕ).length ∧
      1 = pos2ind pc [2] ∧ 1 = pos2ind qc [4] ∧
      (if ([2] : List ℕ).length = 1 then manhattan pc qc ≤ 0
       else 0 ≤ (0:ℚ) ∧ sqDist pc qc ≤ 0 * 0)) := by
  have hok : probDistBuildConn 0 1 1 true [2] [4] rngZero = .ok ([0, 1], [0, 1]) := by
    norm_num [probDistBuildConn, probDistBuildStep, probDistDispatch, probDistConnect1d,
      probDistScan, probDistScanStep, gridPositions, Rng.random, rngZero, manhattan, ratAbs,
      pos2ind, List.range_succ, normalizedPos]
  have h := probDist_raw_distance_only 0 1 1 true [2] [4] rngZero ([0, 1], [0, 1]) hok
  exact ⟨hok, by decide, h.1, h.2 (1, 1) (by decide)⟩

/-- C2 (counterexample to the claim as stated): over `pre_size = (2,)`,
`post_size = (4,)`, `dist = 0`, `prob = 1`, `pre_ratio = 1`,
`include_self = True` and the all-zero draw stream, `build_conn` emits the
edge `(1, 1)` — pre-coordinate `(1,)`, post-coordinate `(1,)` at raw
distance `0` — whose SPEC-rescaled distance is
`|1 · 4/2 − 1| = 1 > 0 = dist`; so an edge is emitted whose rescaled
distance exceeds `dist`, refuting "an edge is emitted only if the rescaled
distance is ≤ dist". -/
theorem probDist_rescaled_claim_counterexample :
    (probDistBuildConn 0 1 1 true [2] [4] rngZero = .ok ([0, 1], [0, 1])) ∧
    specRescaledManhattan [1] [1] [2] [4] = 1 ∧ ¬((1 : ℚ) ≤ 0) := by
  refine ⟨by
    norm_num [probDistBuildConn, probDistBuildStep, probDistDispatch, probDistConnect1d,
      probDistScan, probDistScanStep, gridPositions, Rng.random, rngZero, manhattan, ratAbs,
      pos2ind, List.range_succ, normalizedPos],
    by norm_num [specRescaledManhattan, ratAbs, List.range_succ], by norm_num⟩

/-! ## First builds and seed derivation (spec §2, §5, §6)

Several builders re-derive the compiled-loop seed before running:
`self.seed = self.rng.randint(1, int(1e7)); numba_seed(self.seed)`.  The
connector's own generator (`np.random.RandomState(seed)`), `format_seed`
and `numba_seed` live in `brainpy.math.random`/`brainpy.tools.others`,
which are not among the analysed sources; they are modelled from the
spec.  A `fam : ℕ → Rng` is the process PRNG family: the deterministic
generator state obtained from a given seed, shared by every connector in
the process.  Each `…FirstBuild` wrapper takes the ambient global
generator state `amb` (whatever state `np.random` was left in by earlier
activity) and the connector's construction seed, exactly as the first
`build_conn` call of a freshly constructed connector does. -/

/-- Modelled from the spec: `numba_seed` (in `brainpy.tools.others`,
missing from the analysed sources) reseeds the process-global generator
used by the compiled loops; per §2 ("seedable pseudo-random generator …
seeded deterministically") and §5 (seeds re-derived before each build),
seeding with `s` deterministically resets the generator to the family
state `fam s`, discarding the previous global state. -/
def numbaSeed (fam : ℕ → Rng) (s : ℕ) : Rng := fam s

/-- `self.rng.randint(1, int(1e7))`: the next integer draw of the
connector's own generator, reduced into `[1, 10^7)`. -/
def randint1e7 (r : Rng) : ℕ × Rng :=
  let (n, r) := r.randNat
  (1 + n % (10 ^ 7 - 1), r)

/-- First `FixedProb.build_conn` (lines 52-57: `numba_seed(self.seed)`
with the construction seed itself, then all draws from the reseeded
global stream). -/
def fixedProbFirstBuild (fam : ℕ → Rng) (prob preRatio : ℚ) (incl : Bool)
    (preNum postNum seed : ℕ) (amb : Rng) : List ℕ × List ℕ :=
  fixedProbBuildConn prob preRatio incl preNum postNum (numbaSeed fam seed)

/-- First `FixedPostNum.build_conn` (lines 249-251: derive the loop seed
from the own generator, reseed, then row `i` reads `post_num` sequential
uniform draws). -/
def fixedPostNumFirstBuild (fam : ℕ → Rng) (num preNum postNum seed : ℕ)
    (incl : Bool) (amb : Rng) : Except PyErr (List ℕ × List ℕ) :=
  let s := (randint1e7 (fam seed)).1
  fixedPostNumBuildConn num preNum postNum incl
    (fun i j => (numbaSeed fam s).runif (i * postNum + j))

/-- First `FixedPreNum.build_conn` (lines 205-207). -/
def fixedPreNumFirstBuild (fam : ℕ → Rng) (num preNum postNum seed : ℕ)
    (incl : Bool) (amb : Rng) : Except PyErr (List ℕ × List ℕ) :=
  let s := (randint1e7 (fam seed)).1
  fixedPreNumBuildConn num preNum postNum incl
    (fun i j => (numbaSeed fam s).runif (i * preNum + j))

/-- First `GaussianProb.build_conn` (line 383: the threshold draws come
from the connector's own generator, seeded at construction; no global
reseeding is involved). -/
def gaussianProbFirstBuild (fam : ℕ → Rng) (probMat : ℕ → ℕ → ℚ)
    (normalize incl : Bool) (n seed : ℕ) (amb : Rng) : Mat :=
  gaussianProbBuildConn probMat (fun i j => (fam seed).runif (i * n + j))
    normalize incl n

/-- First `SmallWorld.build_conn` (lines 466-468: derive the loop seed,
reseed, then all rewiring draws come from the reseeded global stream). -/
def smallWorldFirstBuild (fam : ℕ → Rng) (numNeighbor : ℕ) (prob : ℚ)
    (directed incl : Bool) (N fuel seed : ℕ) (amb : Rng) : Except SWFail Mat :=
  let s := (randint1e7 (fam seed)).1
  smallWorldBuildConn numNeighbor prob directed incl N fuel (numbaSeed fam s)

/-- `_random_subset` (lines 568-575) against an explicit generator: draw
`rng.choice(seq)` until `m` distinct values are collected (fuelled; the
source has no guard against the degenerate non-terminating case). -/
def randomSubsetAux (seq : List ℕ) (m : ℕ) : ℕ → List ℕ → Rng → Option (List ℕ × Rng)
  | 0, acc, r => if acc.length = m then some (acc, r) else none
  | fuel + 1, acc, r =>
      if acc.length = m then some (acc, r)
      else
        let (x, r) := r.choice seq
        randomSubsetAux seq m fuel (if x ∈ acc then acc else acc ++ [x]) r

def randomSubset (seq : List ℕ) (m fuel : ℕ) (r : Rng) : Option (List ℕ × Rng) :=
  randomSubsetAux seq m fuel [] r

/-- One `ScaleFreeBA` growth step with the generator threaded through
`_random_subset`. -/
def baStepRng (m : ℕ) (directed : Bool) (fuel : ℕ)
    (st : BAState × Rng) (source : ℕ) : Option (BAState × Rng) :=
  let conn := writeEdges st.1.conn source st.1.targets directed
  let rep := st.1.repeated ++ st.1.targets ++ List.replicate m source
  match randomSubset rep m fuel st.2 with
  | none => none
  | some (ts, r) => some (⟨conn, rep, ts⟩, r)

/-- First `ScaleFreeBA.build_conn` (lines 582-617) with the concrete
generator-driven `_random_subset`. -/
def scaleFreeBAFirstBuild (fam : ℕ → Rng) (m N : ℕ) (directed : Bool)
    (fuel seed : ℕ) (amb : Rng) : Except SWFail Mat :=
  let s := (randint1e7 (fam seed)).1
  let r := numbaSeed fam s
  if m < 1 ∨ N ≤ m then .error (.pyErr .connectorError)
  else
    match (List.range' m (N - m)).foldlM (baStepRng m directed fuel)
        (⟨matZeros, [], List.range m⟩, r) with
    | some (st, _) => .ok st.conn
    | none => .error .fuelOut

/-- One `ScaleFreeBADual` growth step (lines 698-713): the edges use the
step's current `m` (drawn at the end of the previous step from the
connector's own generator, `self.rng.random() < p`); the next `m` and the
next targets are drawn afterwards. -/
def baDualStepRng (m1 m2 : ℕ) (p : ℚ) (directed : Bool) (fuel : ℕ)
    (st : (BAState × ℕ) × Rng × Rng) (source : ℕ) :
    Option ((BAState × ℕ) × Rng × Rng) :=
  let conn := writeEdges st.1.1.conn source st.1.1.targets directed
  let rep := st.1.1.repeated ++ st.1.1.targets ++ List.replicate st.1.2 source
  let (d, own) := st.2.1.random
  let m := if d < p then m1 else m2
  match randomSubset rep m fuel st.2.2 with
  | none => none
  | some (ts, g) => some ((⟨conn, rep, ts⟩, m), own, g)

/-- First `ScaleFreeBADual.build_conn` (lines 672-715). -/
def scaleFreeBADualFirstBuild (fam : ℕ → Rng) (m1 m2 : ℕ) (p : ℚ)
    (directed : Bool) (N fuel seed : ℕ) (amb : Rng) : Except SWFail Mat :=
  let own := fam seed
  let (s, own) := randint1e7 own
  let g := numbaSeed fam s
  if m1 < 1 ∨ N ≤ m1 then .error (.pyErr .connectorError)
  else if m2 < 1 ∨ N ≤ m2 then .error (.pyErr .connectorError)
  else if p < 0 ∨ 1 < p then .error (.pyErr .connectorError)
  else
    let (d, own) := own.random
    let m := if d < p then m1 else m2
    match (List.range' (max m1 m2) (N - max m1 m2)).foldlM
        (baDualStepRng m1 m2 p directed fuel)
        ((⟨matZeros, [], List.range m⟩, m), own, g) with
    | some (st, _) => .ok st.1.conn
    | none => .error .fuelOut

/-- Write an edge, symmetrically when undirected. -/
def addEdge (conn : Mat) (s t : ℕ) (directed : Bool) : Mat :=
  let c := matSet conn s t true
  if directed then c else matSet c t s true

/-- The `PowerLaw` inner loop (lines 806-825), adding `m - 1` further
edges for `source`: with probability `p` (own generator) try to close a
triangle with a neighbour of the current `target` not yet connected to
`source`; otherwise (or when no such neighbour exists) pop the next
preferential-attachment target. -/
def plInner (N : ℕ) (p : ℚ) (directed : Bool) (source : ℕ) :
    ℕ → Mat → List ℕ → List ℕ → ℕ → Rng → Mat × List ℕ × Rng
  | 0, conn, rep, _, _, own => (conn, rep, own)
  | k + 1, conn, rep, pts, target, own =>
      let (d, own) := own.random
      let attach : Mat × List ℕ × Rng :=
        let t := pts.headD 0
        plInner N p directed source k (addEdge conn source t directed)
          (rep ++ [t]) pts.tail t own
      if d < p then
        let neighbors := (List.range N).filter (fun j => conn target j)
        let neighborhood := neighbors.filter
          (fun nbr => !(conn source nbr) && decide (nbr ≠ source))
        if neighborhood.isEmpty then attach
        else
          let (nbr, own) := own.choice neighborhood
          plInner N p directed source k (addEdge conn source nbr directed)
            (rep ++ [nbr]) pts target own
      else attach

/-- One `PowerLaw` growth step (lines 798-827). -/
def plStep (m N : ℕ) (p : ℚ) (directed : Bool) (fuel : ℕ)
    (st : (Mat × List ℕ) × Rng × Rng) (source : ℕ) :
    Option ((Mat × List ℕ) × Rng × Rng) :=
  match randomSubset st.1.2 m fuel st.2.2 with
  | none => none
  | some (pts, g) =>
      let target := pts.headD 0
      let conn := addEdge st.1.1 source target directed
      let rep := st.1.2 ++ [target]
      let res := plInner N p directed source (m - 1) conn rep pts.tail target st.2.1
      some ((res.1, res.2.1 ++ List.replicate m source), res.2.2, g)

/-- First `PowerLaw.build_conn` (lines 785-829); the construction-time
check `0 ≤ p ≤ 1` (lines 766-767, `ConnectorError`) is folded in. -/
def powerLawFirstBuild (fam : ℕ → Rng) (m N : ℕ) (p : ℚ) (directed : Bool)
    (fuel seed : ℕ) (amb : Rng) : Except SWFail Mat :=
  if p < 0 ∨ 1 < p then .error (.pyErr .connectorError)
  else
    let own := fam seed
    let (s, own) := randint1e7 own
    let g := numbaSeed fam s
    if m < 1 ∨ N < m then .error (.pyErr .connectorError)
    else
      match (List.range' m (N - m)).foldlM (plStep m N p directed fuel)
          ((matZeros, List.range m), own, g) with
      | some (st, _) => .ok st.1
      | none => .error .fuelOut

/-- First `ProbDist.build_conn` (lines 968-969: derive the loop seed from
the own generator, reseed the global stream, then run; dims 1-4). -/
def probDistFirstBuild (fam : ℕ → Rng) (dist prob preRatio : ℚ)
    (incl : Bool) (preSize postSize : List ℕ) (seed : ℕ) (amb : Rng) :
    Except PyErr (List ℕ × List ℕ) :=
  let s := (randint1e7 (fam seed)).1
  probDistBuildConn dist prob preRatio incl preSize postSize (numbaSeed fam s)

/-- C6: first-build determinism, for every connector algorithm.  Each
builder starts by reseeding deterministically (`numba_seed` with the
construction seed or a seed derived from the connector's own
freshly-seeded generator), so the first build of a freshly constructed
connector is a function of the construction seed and parameters alone: it
does not depend on the ambient global generator state `amb`/`amb'` left
behind by other activity.  Hence two freshly constructed instances with
the same explicit seed, parameters and shapes produce identical first
representations — in particular `ProbDist.build_conn` over any
1-D/2-D/3-D/4-D shapes. -/
theorem first_build_deterministic (fam : ℕ → Rng) (seed : ℕ) (amb amb' : Rng)
    (prob preRatio dist p : ℚ) (incl normalize directed : Bool)
    (probMat : ℕ → ℕ → ℚ) (num preNum postNum n N m m1 m2 numNeighbor fuel : ℕ)
    (preSize postSize : List ℕ) :
    fixedProbFirstBuild fam prob preRatio incl preNum postNum seed amb
      = fixedProbFirstBuild fam prob preRatio incl preNum postNum seed amb' ∧
    fixedPostNumFirstBuild fam num preNum postNum seed incl amb
      = fixedPostNumFirstBuild fam num preNum postNum seed incl amb' ∧
    fixedPreNumFirstBuild fam num preNum postNum seed incl amb
      = fixedPreNumFirstBuild fam num preNum postNum seed incl amb' ∧
    gaussianProbFirstBuild fam probMat normalize incl n seed amb
      = gaussianProbFirstBuild fam probMat normalize incl n seed amb' ∧
    smallWorldFirstBuild fam numNeighbor prob directed incl N fuel seed amb
      = smallWorldFirstBuild fam numNeighbor prob directed incl N fuel seed amb' ∧
    scaleFreeBAFirstBuild fam m N directed fuel seed amb
      = scaleFreeBAFirstBuild fam m N directed fuel seed amb' ∧
    scaleFreeBADualFirstBuild fam m1 m2 p directed N fuel seed amb
      = scaleFreeBADualFirstBuild fam m1 m2 p directed N fuel seed amb' ∧
    powerLawFirstBuild fam m N p directed fuel seed amb
      = powerLawFirstBuild fam m N p directed fuel seed amb' ∧
    probDistFirstBuild fam dist prob preRatio incl preSize postSize seed amb
      = probDistFirstBuild fam dist prob preRatio incl preSize postSize seed amb' :=
  ⟨rfl, rfl, rfl, rfl, rfl, rfl, rfl, rfl, rfl⟩

end BrainPy
